import Mathlib

/-!
Shallow embedding of the DAG editor's validity and layout core
(src/types/dag.ts, src/hooks/useEdgeManagement.ts, useDAGValidation,
useNodeManagement, geometryUtils, layoutUtils), with theorems settling
the specification claims about it.

Numbers are modelled exactly: pixel coordinates are real numbers,
counters and indices are naturals.  JavaScript string ids are `String`.
-/

/-- 2D position, from src/types/dag.ts (interface Position). -/
structure Position where
  x : ℝ
  y : ℝ

/-- Node of the DAG, from src/types/dag.ts (interface DAGNode). -/
structure DAGNode where
  id : String
  label : String
  position : Position
  selected : Bool

/-- Directed edge, from src/types/dag.ts (interface DAGEdge). -/
structure DAGEdge where
  id : String
  source : String
  target : String
  selected : Bool
  deriving DecidableEq

/-- Result of edge admission, from useEdgeManagement.ts (EdgeValidationResult). -/
structure EdgeValidationResult where
  isValid : Bool
  errorMessage : Option String
  deriving DecidableEq

/-- Result of full-graph validation, from src/types/dag.ts (ValidationResult). -/
structure ValidationResult where
  isValid : Bool
  errors : List String
  deriving DecidableEq

/-- Edge admission policy, from useEdgeManagement.ts lines 46-95 (validateEdge).
The hook closes over the current edges and nodes; here they are explicit
arguments.  Four sequential checks, first failure wins. -/
def validateEdge (edges : List DAGEdge) (nodes : List DAGNode)
    (sourceId targetId : String) : EdgeValidationResult :=
  -- Rule 1: No self-connections
  if sourceId == targetId then
    ⟨false, some "Self-connections are not allowed"⟩
  -- Rule 2: No duplicate edges
  else if edges.any (fun edge => edge.source == sourceId && edge.target == targetId) then
    ⟨false, some "Edge already exists between these nodes"⟩
  -- Rule 3: Both nodes must exist
  else if !(nodes.any (fun node => node.id == sourceId)) ||
          !(nodes.any (fun node => node.id == targetId)) then
    ⟨false, some "Source or target node does not exist"⟩
  -- Rule 4: direct-cycle check
  else if edges.any (fun edge => edge.source == targetId && edge.target == sourceId) then
    ⟨false, some "This connection would create a direct cycle"⟩
  else
    ⟨true, none⟩

/-! Association-list model of the JavaScript Map used by detectCycle and the
layout code: get finds the first binding, set replaces the first binding or
appends a new one (JS Map semantics with unique keys). -/

/-- Lookup in an association list (JS Map.get): first binding wins. -/
def aget : List (String × α) → String → Option α
  | [], _ => none
  | p :: rest, k => if p.1 == k then some p.2 else aget rest k

/-- Update/insert in an association list (JS Map.set). -/
def aset (g : List (String × α)) (k : String) (v : α) : List (String × α) :=
  match g with
  | [] => [(k, v)]
  | p :: rest => if p.1 == k then (k, v) :: rest else p :: aset rest k v

/-- Adjacency lookup with the JavaScript default: graph.get(id) or []. -/
def agetD (g : List (String × List String)) (k : String) : List String :=
  match aget g k with
  | some l => l
  | none => []

/-- Adjacency list built by detectCycle (useEdgeManagement.ts lines 242-251):
every node id gets an empty list, then each edge pushes its target onto its
source's list (creating the binding when the source is not a node). -/
def buildGraph (nodes : List DAGNode) (edges : List DAGEdge) :
    List (String × List String) :=
  edges.foldl (fun g edge => aset g edge.source (agetD g edge.source ++ [edge.target]))
    (nodes.foldl (fun g node => aset g node.id []) [])

/-- Depth-first search of detectCycle (useEdgeManagement.ts lines 254-275).
The recursion stack and visited set are explicit; the loop over neighbors
(for ... if dfs(neighbor) return true) is a fold that keeps the first true
result and threads the visited set.  Recursion depth is bounded by fuel (the
JavaScript recursion terminates because visited only grows, so any fuel
larger than the number of reachable ids gives the same answer). -/
def dfs (fuel : Nat) (g : List (String × List String)) (n : String)
    (stack visited : List String) : Bool × List String :=
  match fuel with
  | 0 => (false, visited)
  | fuel' + 1 =>
    if n ∈ stack then (true, visited)
    else if n ∈ visited then (false, visited)
    else
      (agetD g n).foldl
        (fun acc m => if acc.1 then acc else dfs fuel' g m (n :: stack) acc.2)
        (false, n :: visited)

/-- Cycle detection, from useEdgeManagement.ts lines 237-287 (detectCycle):
DFS from every not-yet-visited node. -/
def detectCycle (nodes : List DAGNode) (edges : List DAGEdge) : Bool :=
  let g := buildGraph nodes edges
  let fuel := nodes.length + edges.length + 1
  (nodes.foldl
    (fun acc node =>
      if acc.1 then acc
      else if node.id ∈ acc.2 then acc
      else dfs fuel g node.id [] acc.2)
    (false, ([] : List String))).1

/-- Full-graph validator, from useEdgeManagement.ts lines 183-234
(useDAGValidation): four independent rules accumulated in order. -/
def useDAGValidation (nodes : List DAGNode) (edges : List DAGEdge) :
    ValidationResult :=
  -- Rule 1: At least 2 nodes
  let errors1 := if nodes.length < 2 then ["DAG must have at least 2 nodes"] else []
  -- Rule 2: All nodes must be connected to at least one edge
  let connectedNodes := edges.foldl (fun s edge => s ++ [edge.source, edge.target]) []
  let disconnectedNodes := nodes.filter (fun node => !(connectedNodes.contains node.id))
  let errors2 :=
    if 2 ≤ nodes.length then
      if 0 < disconnectedNodes.length then
        ["Disconnected nodes: " ++
          String.intercalate ", " (disconnectedNodes.map (fun n => n.label))]
      else []
    else []
  -- Rule 3: No self-loops
  let selfLoops := edges.filter (fun edge => edge.source == edge.target)
  let errors3 := if 0 < selfLoops.length then ["Self-loops are not allowed"] else []
  -- Rule 4: No cycles (using DFS)
  let errors4 :=
    if 0 < nodes.length && 0 < edges.length then
      if detectCycle nodes edges then ["Graph contains cycles"] else []
    else []
  let errors := errors1 ++ errors2 ++ errors3 ++ errors4
  ⟨errors.isEmpty && decide (2 ≤ nodes.length), errors⟩

/-! Concrete fixtures used by several claims: the three-node chain
A -> B -> C of the spec's end-to-end scenario, and the closing edge C -> A. -/

/-- Fixture node A. -/
def nodeA : DAGNode := ⟨"A", "A", ⟨0, 0⟩, false⟩

/-- Fixture node B. -/
def nodeB : DAGNode := ⟨"B", "B", ⟨0, 0⟩, false⟩

/-- Fixture node C. -/
def nodeC : DAGNode := ⟨"C", "C", ⟨0, 0⟩, false⟩

/-- Fixture edge A -> B. -/
def edgeAB : DAGEdge := ⟨"edge-1", "A", "B", false⟩

/-- Fixture edge B -> C. -/
def edgeBC : DAGEdge := ⟨"edge-2", "B", "C", false⟩

/-- Fixture edge C -> A, closing the 3-cycle. -/
def edgeCA : DAGEdge := ⟨"edge-3", "C", "A", false⟩

/-- Fixture node D. -/
def nodeD : DAGNode := ⟨"D", "D", ⟨0, 0⟩, false⟩

/-- Fixture node E. -/
def nodeE : DAGNode := ⟨"E", "E", ⟨0, 0⟩, false⟩

/-- Fixture edge C -> D. -/
def edgeCD : DAGEdge := ⟨"edge-4", "C", "D", false⟩

/-- Fixture edge D -> C, closing a 2-cycle with edgeCD. -/
def edgeDC : DAGEdge := ⟨"edge-5", "D", "C", false⟩

/-- Fixture edge D -> E. -/
def edgeDE : DAGEdge := ⟨"edge-6", "D", "E", false⟩

/-- Fixture edge E -> A, closing the 5-cycle A B C D E. -/
def edgeEA : DAGEdge := ⟨"edge-7", "E", "A", false⟩

/-- Edge relation of an edge set: a step from a to b exists when some edge
has source a and target b.  A cycle of the directed graph is a nonempty
adjE-path from a node to itself, i.e. Relation.TransGen (adjE edges) m m. -/
def adjE (edges : List DAGEdge) (a b : String) : Prop :=
  ∃ e ∈ edges, e.source = a ∧ e.target = b

/-! Identity machinery of the mutation stores (useNodeManagement.ts and
useEdgeManagement.ts): ids are rendered as "node-" or "edge-" followed by
the decimal counter, and on mount the stores scan existing ids with the
regexes /node-(\d+)/ and /edge-(\d+)/ to restart the counter at
max + 1. -/

/-- Decimal digits of a natural number, most significant first; fuel-bounded
so the definition is structural (any fuel above the number itself is enough). -/
def natToCharsAux : Nat → Nat → List Char
  | 0, _ => []
  | fuel + 1, n =>
    if n < 10 then [Nat.digitChar n]
    else natToCharsAux fuel (n / 10) ++ [Nat.digitChar (n % 10)]

/-- Decimal digit list of a natural number. -/
def natToChars (n : Nat) : List Char := natToCharsAux (n + 1) n

/-- Decimal rendering of a natural number, the model of JavaScript template
interpolation of the id counter. -/
def natToDec (n : Nat) : String := String.mk (natToChars n)

/-- Value of a list of decimal digit characters. -/
def parseDigits (cs : List Char) : Nat :=
  cs.foldl (fun a c => 10 * a + (c.toNat - 48)) 0

/-- First match of the regex pre(\d+) in a character list: scan positions
left to right; at the first position where the pattern matches, take the
maximal digit run after the literal part and parse it. -/
def scanMatch (pre : List Char) : List Char → Option Nat
  | [] => none
  | c :: rest =>
    if (c :: rest).take pre.length = pre ∧
        ((c :: rest).drop pre.length).takeWhile Char.isDigit ≠ [] then
      some (parseDigits (((c :: rest).drop pre.length).takeWhile Char.isDigit))
    else scanMatch pre rest

/-- First match of /pre(\d+)/ in a string (the .match pattern of the
counter-initialisation effects). -/
def matchNum (pre s : String) : Option Nat := scanMatch pre.toList s.toList

/-- The reduce of the counter-initialisation effects: maximum matched
number over a list of ids, starting from 0. -/
def maxIdFold (ids : List String) (pre : String) : Nat :=
  ids.foldl
    (fun mx id =>
      match matchNum pre id with
      | some n => Nat.max mx n
      | none => mx)
    0

/-- State owned by useEdgeManagement: the edge list and the id counter. -/
structure EdgeState where
  edges : List DAGEdge
  counter : Nat

/-- Mount-time state of useEdgeManagement: initial edges, counter one past
the highest matched edge id (useEdgeManagement.ts lines 30-44). -/
def initEdgeState (initialEdges : List DAGEdge) : EdgeState :=
  ⟨initialEdges, maxIdFold (initialEdges.map (fun e => e.id)) "edge-" + 1⟩

/-- The edge created by a successful addEdge at a given counter value. -/
def mkNewEdge (counter : Nat) (sourceId targetId : String) : DAGEdge :=
  ⟨"edge-" ++ natToDec counter, sourceId, targetId, false⟩

/-- addEdge from useEdgeManagement.ts lines 97-119: validate, refuse to
mutate when invalid, otherwise append the new edge and bump the counter. -/
def addEdge (st : EdgeState) (nodes : List DAGNode)
    (sourceId targetId : String) : Bool × EdgeState :=
  let validation := validateEdge st.edges nodes sourceId targetId
  if validation.isValid then
    (true, ⟨st.edges ++ [mkNewEdge st.counter sourceId targetId], st.counter + 1⟩)
  else
    (false, st)

/-- Counter invariant of the edge store: no stored edge already carries the
canonical id form "edge-" ++ decimal n for any n at or above the counter.
It holds at mount time and is preserved by the store's own operations. -/
def edgeCounterInv (st : EdgeState) : Prop :=
  ∀ e ∈ st.edges, ∀ n : Nat, e.id = "edge-" ++ natToDec n → n < st.counter

/-- Whitespace trimming of JavaScript String.prototype.trim, modelled on the
character list: drop leading and trailing whitespace. -/
def strTrim (s : String) : String :=
  String.mk
    (((s.toList.dropWhile Char.isWhitespace).reverse.dropWhile
      Char.isWhitespace).reverse)

/-- State owned by useNodeManagement, plus a history ghost field recording
every id that was ever present in the store (used to state the monotone-id
claim across deletions). -/
structure NodeState where
  nodes : List DAGNode
  counter : Nat
  history : List String

/-- The mutation-store operations on nodes named by claim C6.  addNode
carries the effective node name (the label argument or the prompt answer)
and the effective position (the argument or the random default). -/
inductive NodeOp where
  | addNode (label : String) (pos : Position)
  | removeNode (nodeId : String)
  | removeNodes (nodeIds : List String)
  | clearNodes

/-- Whether an operation is the clearNodes operation. -/
def isClearOp : NodeOp → Bool
  | NodeOp.clearNodes => true
  | _ => false

/-- Mount-time state of useNodeManagement: initial nodes, counter one past
the highest matched node id (useNodeManagement.ts lines 180-191). -/
def initNodeState (initialNodes : List DAGNode) : NodeState :=
  ⟨initialNodes, maxIdFold (initialNodes.map (fun n => n.id)) "node-" + 1,
    initialNodes.map (fun n => n.id)⟩

/-- One mutation-store operation, from useNodeManagement.ts: addNode
(lines 193-216, a blank name throws and creates nothing), removeNode,
removeNodes, and clearNodes (lines 252-255, which also resets the counter
to 1). -/
def applyNodeOp (st : NodeState) : NodeOp → NodeState
  | NodeOp.addNode label pos =>
    if strTrim label = "" then st
    else
      ⟨st.nodes ++ [⟨"node-" ++ natToDec st.counter, strTrim label, pos, false⟩],
        st.counter + 1,
        st.history ++ ["node-" ++ natToDec st.counter]⟩
  | NodeOp.removeNode nodeId =>
    ⟨st.nodes.filter (fun node => node.id != nodeId), st.counter, st.history⟩
  | NodeOp.removeNodes nodeIds =>
    ⟨st.nodes.filter (fun node => !(nodeIds.contains node.id)), st.counter,
      st.history⟩
  | NodeOp.clearNodes => ⟨[], 1, st.history⟩

/-- A sequence of mutation-store operations. -/
def runNodeOps (st : NodeState) (ops : List NodeOp) : NodeState :=
  ops.foldl applyNodeOp st

/-- History invariant of the node store: every id ever present has its
matched numeric suffix below the current counter. -/
def nodeHistoryInv (st : NodeState) : Prop :=
  ∀ id ∈ st.history, ∀ m : Nat, matchNum "node-" id = some m → m < st.counter

/-! Geometry utilities, from src/utils/geometryUtils.ts (unnamed part_003,
first section).  Coordinates are real numbers; Math.round is modelled by
rounding half up, which is what JavaScript Math.round does. -/

/-- Fixed node width in pixels (geometryUtils.ts). -/
noncomputable def NODE_WIDTH : ℝ := 120

/-- Fixed node height in pixels (geometryUtils.ts). -/
noncomputable def NODE_HEIGHT : ℝ := 60

/-- JavaScript Math.round: round half towards positive infinity. -/
noncomputable def jround (x : ℝ) : ℝ := ((round x : ℤ) : ℝ)

/-- Axis-aligned rectangle given by top-left corner and size. -/
structure Rect where
  x : ℝ
  y : ℝ
  width : ℝ
  height : ℝ

/-- Rectangle overlap test, from geometryUtils.ts (doRectsOverlap): the two
rectangles overlap unless one is strictly beyond the other on some axis;
touching counts as overlap. -/
def doRectsOverlap (rect1 rect2 : Rect) : Prop :=
  ¬ (rect1.x + rect1.width < rect2.x ∨
      rect2.x + rect2.width < rect1.x ∨
      rect1.y + rect1.height < rect2.y ∨
      rect2.y + rect2.height < rect1.y)

noncomputable instance (rect1 rect2 : Rect) : Decidable (doRectsOverlap rect1 rect2) := by
  unfold doRectsOverlap
  infer_instance

/-- The rectangle footprint of a node. -/
noncomputable def nodeRect (node : DAGNode) : Rect :=
  ⟨node.position.x, node.position.y, NODE_WIDTH, NODE_HEIGHT⟩

/-- The probe loop of findNonOverlappingPosition (geometryUtils.ts lines
212-238): up to 50 attempts on a 10-wide row-major grid with step 30; the
first padded probe rectangle overlapping no node wins, otherwise fall back
to the start position. -/
noncomputable def findLoop (nodes : List DAGNode) (startPosition : Position)
    (padding : ℝ) (attempt : Nat) : Position :=
  if attempt < 50 then
    let testPosition : Position :=
      ⟨startPosition.x + ((attempt % 10 : Nat) : ℝ) * 30,
        startPosition.y + ((attempt / 10 : Nat) : ℝ) * 30⟩
    let testRect : Rect :=
      ⟨testPosition.x - padding, testPosition.y - padding,
        NODE_WIDTH + padding * 2, NODE_HEIGHT + padding * 2⟩
    if ∃ node ∈ nodes, doRectsOverlap testRect (nodeRect node) then
      findLoop nodes startPosition padding (attempt + 1)
    else testPosition
  else startPosition
termination_by 50 - attempt

/-- Non-overlapping placement search, from geometryUtils.ts lines 203-242
(findNonOverlappingPosition). -/
noncomputable def findNonOverlappingPosition (nodes : List DAGNode)
    (preferredPosition : Option Position) (padding : ℝ) : Position :=
  findLoop nodes (preferredPosition.getD ⟨100, 100⟩) padding 0

/-- The k-th probe position of the placement search: row-major on a
10-wide grid with step 30 from the start position. -/
noncomputable def probeCandidate (startPosition : Position) (k : Nat) : Position :=
  ⟨startPosition.x + ((k % 10 : Nat) : ℝ) * 30,
    startPosition.y + ((k / 10 : Nat) : ℝ) * 30⟩

/-- Whether the k-th probe's padding-inflated rectangle overlaps some
existing node. -/
noncomputable def probeOverlaps (nodes : List DAGNode) (startPosition : Position)
    (padding : ℝ) (k : Nat) : Prop :=
  ∃ node ∈ nodes, doRectsOverlap
    ⟨(probeCandidate startPosition k).x - padding,
      (probeCandidate startPosition k).y - padding,
      NODE_WIDTH + padding * 2, NODE_HEIGHT + padding * 2⟩
    (nodeRect node)

/-! Layout engine, from src/utils/layoutUtils.ts (unnamed part_003, second
section).  The external dagre library and Math.random are modelled as
explicit oracle parameters: an optional position assignment standing for a
successful dagre run (none models the layout throwing, which the source
catches), and a stream of random reals consumed by the force layout's
initial placement. -/

/-- Canvas dimensions. -/
structure CanvasSize where
  width : ℝ
  height : ℝ

/-- Grid layout, from layoutUtils.ts (calculateGridLayout): row-major
placement from origin (100, 100).  The source also computes total rows and
grid extents, which it never uses. -/
noncomputable def calculateGridLayout (nodes : List DAGNode) (columns : Option Nat)
    (spacingX spacingY : ℝ) : List DAGNode :=
  if nodes.length = 0 then nodes
  else
    let optimalColumns := columns.getD ⌈Real.sqrt ((nodes.length : ℝ) * 1.2)⌉₊
    let actualColumns := min optimalColumns nodes.length
    let startX : ℝ := 100
    let startY : ℝ := 100
    nodes.mapIdx (fun index node =>
      let col := index % actualColumns
      let row := index / actualColumns
      { node with position :=
        ⟨startX + (col : ℝ) * spacingX, startY + (row : ℝ) * spacingY⟩ })

/-- Circular layout, from layoutUtils.ts (calculateCircularLayout): one node
is centered; otherwise nodes go on a circle of radius max 150 (25 n),
starting at the top.  For a single node, mapping the one-element list equals
the [modified nodes[0]] of the source. -/
noncomputable def calculateCircularLayout (nodes : List DAGNode) (radius : Option ℝ)
    (centerX centerY : ℝ) : List DAGNode :=
  if nodes.length = 0 then nodes
  else if nodes.length = 1 then
    nodes.map (fun node =>
      { node with position := ⟨centerX - NODE_WIDTH / 2, centerY - NODE_HEIGHT / 2⟩ })
  else
    let optimalRadius := radius.getD (max 150 ((nodes.length : ℝ) * 25))
    let angleStep := 2 * Real.pi / (nodes.length : ℝ)
    let startAngle := -(Real.pi / 2)
    nodes.mapIdx (fun index node =>
      let angle := startAngle + (index : ℝ) * angleStep
      { node with position :=
        ⟨jround (centerX + optimalRadius * Real.cos angle - NODE_WIDTH / 2),
          jround (centerY + optimalRadius * Real.sin angle - NODE_HEIGHT / 2)⟩ })

/-- Push a value onto a key's list only when the key is present: the
optional-chaining push incomingEdges.get(...)?.push(...) of the source. -/
def apushIfMem (m : List (String × List String)) (k v : String) :
    List (String × List String) :=
  match aget m k with
  | some l => aset m k (l ++ [v])
  | none => m

/-- The incoming-edge map built by the hierarchical and tree layouts: keys
are the node ids; edges whose target is no node are dropped. -/
def hierIncoming (nodes : List DAGNode) (edges : List DAGEdge) :
    List (String × List String) :=
  edges.foldl (fun m edge => apushIfMem m edge.target edge.source)
    (nodes.foldl (fun m node => aset m node.id []) [])

/-- The outgoing-edge map built by the hierarchical and tree layouts. -/
def hierOutgoing (nodes : List DAGNode) (edges : List DAGEdge) :
    List (String × List String) :=
  edges.foldl (fun m edge => apushIfMem m edge.source edge.target)
    (nodes.foldl (fun m node => aset m node.id []) [])

/-- Root nodes: nodes with empty incoming list (both layouts). -/
def hierRoots (nodes : List DAGNode) (edges : List DAGEdge) : List DAGNode :=
  nodes.filter (fun node => (agetD (hierIncoming nodes edges) node.id).length == 0)

/-- Output of the topological BFS of calculateHierarchicalLayout. -/
structure HierBFS where
  levels : List (List String)
  visited : List String
  ntl : List (String × Nat)
  levelIndex : Nat

/-- The while loop of calculateHierarchicalLayout (layoutUtils.ts lines
454-479): record the current level, mark it visited, and admit a child to
the next level once all its parents are visited.  nextLevel is a Set, so
duplicates are dropped and insertion order is kept.  Fuel bounds the
iteration count; every real run terminates because visited grows. -/
def hierLoop (outE inE : List (String × List String)) :
    Nat → List String → Nat → List String → List (String × Nat) →
    List (List String) → HierBFS
  | 0, _, levelIndex, visited, ntl, levels => ⟨levels, visited, ntl, levelIndex⟩
  | fuel + 1, currentLevel, levelIndex, visited, ntl, levels =>
    if currentLevel.length = 0 then ⟨levels, visited, ntl, levelIndex⟩
    else
      let visited' := visited ++ currentLevel
      let ntl' := currentLevel.foldl (fun m id => aset m id levelIndex) ntl
      let levels' := levels ++ [currentLevel]
      let nextLevel := currentLevel.foldl
        (fun acc nodeId =>
          (agetD outE nodeId).foldl
            (fun acc childId =>
              if childId ∉ visited' ∧ (∀ p ∈ agetD inE childId, p ∈ visited') ∧
                  childId ∉ acc
              then acc ++ [childId] else acc)
            acc)
        []
      hierLoop outE inE fuel nextLevel (levelIndex + 1) visited' ntl' levels'

/-- The BFS of calculateHierarchicalLayout, seeded with all roots. -/
def hierBFS (nodes : List DAGNode) (edges : List DAGEdge) : HierBFS :=
  hierLoop (hierOutgoing nodes edges) (hierIncoming nodes edges)
    (nodes.length + edges.length + 1)
    ((hierRoots nodes edges).map (fun node => node.id)) 0 [] [] []

/-- The BFS result after the trailing level of never-reached nodes has been
added (layoutUtils.ts lines 481-488). -/
def hierFinal (nodes : List DAGNode) (edges : List DAGEdge) : HierBFS :=
  let r := hierBFS nodes edges
  let unvisitedNodes := nodes.filter (fun node => !(r.visited.contains node.id))
  if 0 < unvisitedNodes.length then
    ⟨r.levels ++ [unvisitedNodes.map (fun n => n.id)], r.visited,
      unvisitedNodes.foldl (fun m node => aset m node.id r.levelIndex) r.ntl,
      r.levelIndex⟩
  else r

/-- Hierarchical layout, from layoutUtils.ts lines 415-510
(calculateHierarchicalLayout): level from the BFS (or the trailing level),
row position from the index inside the level, centered around x = 200; when
there is no in-degree-zero node at all, fall back to a grid layout. -/
noncomputable def calculateHierarchicalLayout (nodes : List DAGNode)
    (edges : List DAGEdge) (levelSpacing nodeSpacing : ℝ) : List DAGNode :=
  if nodes.length = 0 then nodes
  else if (hierRoots nodes edges).length = 0 then
    calculateGridLayout nodes (some ⌈Real.sqrt (nodes.length : ℝ)⌉₊) 200 140
  else
    let r := hierFinal nodes edges
    nodes.map (fun node =>
      let level := (aget r.ntl node.id).getD 0
      let levelNodes := r.levels.getD level []
      let positionInLevel := levelNodes.indexOf node.id
      let levelWidth := max (((levelNodes.length : ℝ) - 1) * nodeSpacing) 0
      let startX := 200 - levelWidth / 2
      { node with position :=
        ⟨jround (startX + (positionInLevel : ℝ) * nodeSpacing),
          jround ((level : ℝ) * levelSpacing + 80)⟩ })

/-- The recursive subtree placement of calculateTreeLayout (layoutUtils.ts
lines 548-602): leaves go to slots by running sibling index, inner nodes
center over their children; the sibling-count parameter of the source is
never read and is omitted.  Fuel bounds the recursion depth. -/
noncomputable def calcSubtree (outE : List (String × List String))
    (direction : String) :
    Nat → String → Nat → Nat → List (String × Position) →
    Nat × List (String × Position)
  | 0, _, _, _, positions => (0, positions)
  | fuel + 1, nodeId, level, siblingIndex, positions =>
    let children := agetD outE nodeId
    let childSpacing : ℝ := if direction = "vertical" then 160 else 200
    let levelSpacing : ℝ := if direction = "vertical" then 140 else 180
    if children.length = 0 then
      let x : ℝ :=
        if direction = "vertical" then (siblingIndex : ℝ) * childSpacing + 100
        else (level : ℝ) * levelSpacing + 100
      let y : ℝ :=
        if direction = "vertical" then (level : ℝ) * levelSpacing + 80
        else (siblingIndex : ℝ) * childSpacing + 100
      (1, aset positions nodeId ⟨jround x, jround y⟩)
    else
      let r := children.foldl
        (fun acc childId =>
          let r' := calcSubtree outE direction fuel childId (level + 1) acc.1 acc.2
          (acc.1 + r'.1, r'.2))
        ((0 : Nat), positions)
      match aget r.2 (children.headD ""), aget r.2 (children.getLastD "") with
      | some firstChild, some lastChild =>
        let centerX := (firstChild.x + lastChild.x) / 2
        let centerY :=
          if direction = "vertical" then (level : ℝ) * levelSpacing + 80
          else (firstChild.y + lastChild.y) / 2
        let x := if direction = "vertical" then centerX
          else (level : ℝ) * levelSpacing + 100
        let y := if direction = "vertical" then centerY else centerX
        (r.1, aset r.2 nodeId ⟨jround x, jround y⟩)
      | _, _ => (r.1, r.2)

/-- Tree layout, from layoutUtils.ts lines 515-613 (calculateTreeLayout):
recursive placement from the first root; nodes never assigned a position
keep their own; with no root at all, fall back to hierarchical. -/
noncomputable def calculateTreeLayout (nodes : List DAGNode)
    (edges : List DAGEdge) (direction : String) : List DAGNode :=
  if nodes.length = 0 then nodes
  else
    match hierRoots nodes edges with
    | [] => calculateHierarchicalLayout nodes edges 180 160
    | rootNode :: _ =>
      let positions :=
        (calcSubtree (hierOutgoing nodes edges) direction (nodes.length + 1)
          rootNode.id 0 0 []).2
      nodes.map (fun node =>
        match aget positions node.id with
        | some pos => { node with position := pos }
        | none => node)

/-- Particle state of the force simulation. -/
structure Particle where
  id : String
  x : ℝ
  y : ℝ
  vx : ℝ
  vy : ℝ

/-- One repulsion update between particles i and j (layoutUtils.ts lines
648-663): inverse-square force along the connecting line; zero distance is
replaced by 1 as in the source. -/
noncomputable def forceRepulseStep (ps : List Particle) (i j : Nat) : List Particle :=
  match ps[i]?, ps[j]? with
  | some p1, some p2 =>
    let dx := p2.x - p1.x
    let dy := p2.y - p1.y
    let distance :=
      if Real.sqrt (dx * dx + dy * dy) = 0 then 1 else Real.sqrt (dx * dx + dy * dy)
    let force := 8000 / (distance * distance)
    let fx := dx / distance * force
    let fy := dy / distance * force
    (ps.set i { p1 with vx := p1.vx - fx, vy := p1.vy - fy }).set j
      { p2 with vx := p2.vx + fx, vy := p2.vy + fy }
  | _, _ => ps

/-- One iteration of the force simulation (layoutUtils.ts lines 640-706):
reset velocities, pairwise repulsion, attraction along edges (the source
computes a distance here but never uses it), centering, damping, integration
and clamping to the canvas minus a 100 pixel padding. -/
noncomputable def forcePass (canvas : CanvasSize) (edges : List DAGEdge)
    (ps0 : List Particle) : List Particle :=
  let ps1 := ps0.map (fun p => { p with vx := 0, vy := 0 })
  let n := ps1.length
  let ps2 := (List.range n).foldl
    (fun ps i =>
      (List.range' (i + 1) (n - (i + 1))).foldl
        (fun ps j => forceRepulseStep ps i j) ps)
    ps1
  let ps3 := edges.foldl
    (fun ps edge =>
      match ps.findIdx? (fun p => p.id == edge.source),
          ps.findIdx? (fun p => p.id == edge.target) with
      | some si, some ti =>
        match ps[si]?, ps[ti]? with
        | some source, some target =>
          let dx := target.x - source.x
          let dy := target.y - source.y
          let fx := dx * 0.05
          let fy := dy * 0.05
          (ps.set si { source with vx := source.vx + fx, vy := source.vy + fy }).set
            ti { target with vx := target.vx - fx, vy := target.vy - fy }
        | _, _ => ps
      | _, _ => ps)
    ps2
  let ps4 := ps3.map (fun p =>
    { p with
      vx := p.vx + (canvas.width / 2 - p.x) * 0.001,
      vy := p.vy + (canvas.height / 2 - p.y) * 0.001 })
  ps4.map (fun p =>
    let vx := p.vx * 0.85
    let vy := p.vy * 0.85
    { p with
      vx := vx,
      vy := vy,
      x := max 100 (min (p.x + vx) (canvas.width - 100)),
      y := max 100 (min (p.y + vy) (canvas.height - 100)) })

/-- The fixed-count iteration of the force simulation. -/
noncomputable def forceIterate (canvas : CanvasSize) (edges : List DAGEdge) :
    Nat → List Particle → List Particle
  | 0, ps => ps
  | k + 1, ps => forceIterate canvas edges k (forcePass canvas edges ps)

/-- Force-directed layout, from layoutUtils.ts lines 618-718
(calculateForceLayout).  A zero coordinate is falsy in JavaScript, so it is
replaced by a random start (and at read-back by the node's own coordinate);
rand models the Math.random stream, indexed per node and axis. -/
noncomputable def calculateForceLayout (rand : Nat → ℝ) (nodes : List DAGNode)
    (edges : List DAGEdge) (iterations : Nat) (canvas : CanvasSize) :
    List DAGNode :=
  if nodes.length = 0 then nodes
  else
    let init := nodes.mapIdx (fun i node =>
      Particle.mk node.id
        (if node.position.x = 0 then canvas.width / 2 + (rand (2 * i) - 0.5) * 200
          else node.position.x)
        (if node.position.y = 0 then canvas.height / 2 + (rand (2 * i + 1) - 0.5) * 200
          else node.position.y)
        0 0)
    let ps := forceIterate canvas edges iterations init
    nodes.map (fun node =>
      let px := match ps.find? (fun p => p.id == node.id) with
        | some p => if p.x = 0 then node.position.x else p.x
        | none => node.position.x
      let py := match ps.find? (fun p => p.id == node.id) with
        | some p => if p.y = 0 then node.position.y else p.y
        | none => node.position.y
      { node with position := ⟨jround px, jround py⟩ })

/-- Dagre-based layout, from layoutUtils.ts lines 259-329 (applyDagreLayout).
The library run is the oracle: some f is a successful run assigning center
coordinates per node id, none is the throwing run, handled by falling back
to the hierarchical layout with the option's separations, as the catch
block does.  Center coordinates are converted to top-left and rounded. -/
noncomputable def applyDagreLayout (oracle : Option (String → Option Position))
    (nodes : List DAGNode) (edges : List DAGEdge) (rankSep nodeSep : ℝ) :
    List DAGNode :=
  if nodes.length = 0 then nodes
  else
    match oracle with
    | none => calculateHierarchicalLayout nodes edges rankSep nodeSep
    | some layout =>
      nodes.map (fun node =>
        match layout node.id with
        | some graphNode =>
          { node with position :=
            ⟨jround (graphNode.x - NODE_WIDTH / 2),
              jround (graphNode.y - NODE_HEIGHT / 2)⟩ }
        | none => node)

/-- JavaScript Math.atan2. -/
noncomputable def atan2 (y x : ℝ) : ℝ :=
  if 0 < x then Real.arctan (y / x)
  else if x < 0 then
    (if 0 ≤ y then Real.arctan (y / x) + Real.pi else Real.arctan (y / x) - Real.pi)
  else if 0 < y then Real.pi / 2
  else if y < 0 then -(Real.pi / 2)
  else 0

/-- One pair update of the overlap resolver (layoutUtils.ts lines 737-769):
when nodes i and j are closer than the minimum distance, push both apart
along the connecting line by half the deficit plus 5 and raise the overlap
flag. -/
noncomputable def resolveStep (minDistance : ℝ) (acc : List DAGNode × Bool)
    (i j : Nat) : List DAGNode × Bool :=
  match acc.1[i]?, acc.1[j]? with
  | some node1, some node2 =>
    let dx := node2.position.x - node1.position.x
    let dy := node2.position.y - node1.position.y
    let distance := Real.sqrt (dx * dx + dy * dy)
    if distance < minDistance then
      let separationDistance := (minDistance - distance) / 2 + 5
      let angle := atan2 dy dx
      let separationX := Real.cos angle * separationDistance
      let separationY := Real.sin angle * separationDistance
      ((acc.1.set i
          { node1 with position :=
            ⟨jround (node1.position.x - separationX),
              jround (node1.position.y - separationY)⟩ }).set j
        { node2 with position :=
          ⟨jround (node2.position.x + separationX),
            jround (node2.position.y + separationY)⟩ },
        true)
    else acc
  | _, _ => acc

/-- One pass of the overlap resolver over all pairs i < j in row-major
order; the flag records whether any pair overlapped. -/
noncomputable def resolvePass (minDistance : ℝ) (ns0 : List DAGNode) :
    List DAGNode × Bool :=
  let n := ns0.length
  (List.range n).foldl
    (fun acc i =>
      (List.range' (i + 1) (n - (i + 1))).foldl
        (fun acc j => resolveStep minDistance acc i j)
        acc)
    (ns0, false)

/-- The bounded iteration of the overlap resolver: up to 15 passes, stopping
after the first pass that found no overlap. -/
noncomputable def resolveLoop (minDistance : ℝ) : Nat → List DAGNode → List DAGNode
  | 0, ns => ns
  | k + 1, ns =>
    let r := resolvePass minDistance ns
    if r.2 then resolveLoop minDistance k r.1 else r.1

/-- Overlap resolution, from layoutUtils.ts lines 723-777
(resolveNodeOverlaps). -/
noncomputable def resolveNodeOverlaps (nodes : List DAGNode) (minSpacing : ℝ) :
    List DAGNode :=
  if nodes.length ≤ 1 then nodes
  else resolveLoop (NODE_WIDTH + minSpacing) 15 nodes

/-- Frame relation of the layout engine: the output node keeps the input
node's identity, label and selection flag (only the position may change). -/
def PreservesNode (a b : DAGNode) : Prop :=
  b.id = a.id ∧ b.label = a.label ∧ b.selected = a.selected

/-- Strategy selection, from layoutUtils.ts lines 782-836
(getSuggestedLayout).  The source also builds an outgoing-count map and a
leaf list it never reads; ratios are exact rationals here. -/
def getSuggestedLayout (nodes : List DAGNode) (edges : List DAGEdge) : String :=
  if nodes.length ≤ 1 then "grid"
  else if nodes.length ≤ 4 then "circular"
  else
    let incomingCounts := edges.foldl
      (fun m edge => aset m edge.target ((aget m edge.target).getD 0 + 1))
      (nodes.foldl (fun m node => aset m node.id 0) ([] : List (String × Nat)))
    let rootNodes := incomingCounts.filter (fun p => p.2 == 0)
    if rootNodes.length = 1 ∧ edges.length = nodes.length - 1 then "tree"
    else
      let treelike :=
        ((incomingCounts.filter (fun p => decide (p.2 ≤ 1))).length : ℚ) /
          (nodes.length : ℚ)
      if (4 : ℚ) / 5 < treelike ∧ 0 < edges.length then "hierarchical"
      else
        let density :=
          (edges.length : ℚ) / (((nodes.length : ℚ) * ((nodes.length : ℚ) - 1)) / 2)
        if (3 : ℚ) / 10 < density then "force"
        else if 0 < edges.length ∧ nodes.length ≤ 20 then "dagre"
        else if nodes.length ≤ 12 then "circular"
        else "grid"

/-- Best-layout application, from layoutUtils.ts lines 841-887
(applyBestLayout): dispatch on the suggested strategy, then always resolve
overlaps with minimum spacing 50. -/
noncomputable def applyBestLayout (oracle : Option (String → Option Position))
    (rand : Nat → ℝ) (nodes : List DAGNode) (edges : List DAGEdge)
    (canvasSize : Option CanvasSize) : List DAGNode :=
  let layoutType := getSuggestedLayout nodes edges
  let defaultCanvasSize := canvasSize.getD ⟨800, 600⟩
  let layoutedNodes :=
    if layoutType = "tree" then calculateTreeLayout nodes edges "vertical"
    else if layoutType = "hierarchical" then
      calculateHierarchicalLayout nodes edges 180 160
    else if layoutType = "dagre" then applyDagreLayout oracle nodes edges 200 120
    else if layoutType = "force" then
      calculateForceLayout rand nodes edges 150 defaultCanvasSize
    else if layoutType = "circular" then calculateCircularLayout nodes none 400 300
    else calculateGridLayout nodes (some ⌈Real.sqrt ((nodes.length : ℝ) * 1.5)⌉₊) 200 150
  resolveNodeOverlaps layoutedNodes 50

/-- C10: for every sourceId equal to targetId, validateEdge returns
isValid = false with the self-connection message, for every edge set and
every node set (even when the identity is absent from the node set),
because the self-connection check runs first. -/
theorem validateEdge_self_connection_rejected
    (edges : List DAGEdge) (nodes : List DAGNode) (sourceId : String) :
    validateEdge edges nodes sourceId sourceId =
      ⟨false, some "Self-connections are not allowed"⟩ := by
  simp [validateEdge]

/-- C4: whenever the edge set already contains an edge B -> A, the nodes A
and B are distinct and both exist, and no edge A -> B exists yet,
validateEdge A B rejects with the direct-cycle reason (the four admission
checks run in order and the first failing one wins). -/
theorem validateEdge_reverse_edge_direct_cycle
    (edges : List DAGEdge) (nodes : List DAGNode) (a b : String)
    (hne : a ≠ b)
    (hrev : ∃ e ∈ edges, e.source = b ∧ e.target = a)
    (hnodup : ¬ ∃ e ∈ edges, e.source = a ∧ e.target = b)
    (ha : ∃ n ∈ nodes, n.id = a)
    (hb : ∃ n ∈ nodes, n.id = b) :
    validateEdge edges nodes a b =
      ⟨false, some "This connection would create a direct cycle"⟩ := by
  obtain ⟨e, he, hs, ht⟩ := hrev
  obtain ⟨na, hna, hna2⟩ := ha
  obtain ⟨nb, hnb, hnb2⟩ := hb
  have h1 : (a == b) = false := by simp [hne]
  have h2 : edges.any (fun e => e.source == a && e.target == b) = false := by
    simp only [List.any_eq_false, Bool.and_eq_true, beq_iff_eq, not_and]
    intro e' he' hs' ht'
    exact hnodup ⟨e', he', hs', ht'⟩
  have h3 : nodes.any (fun n => n.id == a) = true :=
    List.any_eq_true.mpr ⟨na, hna, by simp [hna2]⟩
  have h4 : nodes.any (fun n => n.id == b) = true :=
    List.any_eq_true.mpr ⟨nb, hnb, by simp [hnb2]⟩
  have h5 : edges.any (fun e => e.source == b && e.target == a) = true :=
    List.any_eq_true.mpr ⟨e, he, by simp [hs, ht]⟩
  simp [validateEdge, h1, h2, h3, h4, h5]

/-- Witness for C4 at a concrete input: edges [B -> A], nodes [A, B]. -/
theorem validateEdge_reverse_edge_direct_cycle_witness :
    validateEdge [⟨"edge-1", "B", "A", false⟩] [nodeA, nodeB] "A" "B" =
      ⟨false, some "This connection would create a direct cycle"⟩ :=
  validateEdge_reverse_edge_direct_cycle _ _ _ _
    (by decide) ⟨⟨"edge-1", "B", "A", false⟩, by simp⟩
    (by simp [nodeA, nodeB]) ⟨nodeA, by simp, by simp [nodeA]⟩
    ⟨nodeB, by simp, by simp [nodeB]⟩

/-- C2: with exactly the edges A -> B and B -> C over existing nodes A, B,
C, validateEdge C A succeeds (the admission policy only checks the direct
reverse edge, not longer cycles), and validation of the graph extended with
C -> A reports a cycle error. -/
theorem validateEdge_longer_cycle_gap :
    (validateEdge [edgeAB, edgeBC] [nodeA, nodeB, nodeC] "C" "A").isValid = true ∧
    "Graph contains cycles" ∈
      (useDAGValidation [nodeA, nodeB, nodeC] [edgeAB, edgeBC, edgeCA]).errors := by
  decide

/-- Lookup after a Map.set: the new binding is seen exactly at the written key. -/
theorem aget_aset (g : List (String × α)) (k : String) (v : α) (a : String) :
    aget (aset g k v) a = if a = k then some v else aget g a := by
  induction g with
  | nil =>
    by_cases h : a = k
    · subst h; simp [aset, aget]
    · have h2 : (k == a) = false := by simp [Ne.symm h]
      simp [aset, aget, h, h2]
  | cons p rest ih =>
    by_cases hpk : p.1 = k
    · have hb : (p.1 == k) = true := by simp [hpk]
      by_cases hak : a = k
      · subst hak; simp [aset, aget, hb]
      · have h2 : (k == a) = false := by simp [Ne.symm hak]
        have h3 : (p.1 == a) = false := by rw [hpk]; exact h2
        simp [aset, aget, hb, h2, h3, hak]
    · have hb : (p.1 == k) = false := by simp [hpk]
      by_cases hpa : p.1 = a
      · have hak : ¬ a = k := fun h => hpk (hpa.trans h)
        simp [aset, aget, hb, hpa, hak]
      · have hc : (p.1 == a) = false := by simp [hpa]
        simp [aset, aget, hb, hc, ih]

/-- Default-[] lookup after a Map.set. -/
theorem agetD_aset (g : List (String × List String)) (k : String)
    (v : List String) (a : String) :
    agetD (aset g k v) a = if a = k then v else agetD g a := by
  unfold agetD
  rw [aget_aset]
  by_cases h : a = k <;> simp [h]

/-- The node-initialisation fold of buildGraph produces only empty adjacency
lists. -/
theorem agetD_initGraph (nodes : List DAGNode) :
    ∀ (g0 : List (String × List String)), (∀ a, agetD g0 a = []) →
      ∀ a, agetD (nodes.foldl (fun g node => aset g node.id []) g0) a = [] := by
  induction nodes with
  | nil => intro g0 h a; simpa using h a
  | cons node rest ih =>
    intro g0 h a
    rw [List.foldl_cons]
    refine ih (aset g0 node.id []) (fun a' => ?_) a
    rw [agetD_aset]
    by_cases h' : a' = node.id <;> simp [h', h a']

/-- Every neighbor recorded by the edge fold of buildGraph comes from the
initial map or from one of the folded edges. -/
theorem mem_foldl_graph (edges : List DAGEdge) :
    ∀ (g0 : List (String × List String)) (a b : String),
      b ∈ agetD (edges.foldl
        (fun g edge => aset g edge.source (agetD g edge.source ++ [edge.target])) g0) a →
      b ∈ agetD g0 a ∨ ∃ e ∈ edges, e.source = a ∧ e.target = b := by
  induction edges with
  | nil => intro g0 a b h; exact Or.inl h
  | cons e rest ih =>
    intro g0 a b h
    rw [List.foldl_cons] at h
    rcases ih _ a b h with h' | ⟨e', he', hs, ht⟩
    · rw [agetD_aset] at h'
      by_cases hae : a = e.source
      · subst hae
        rw [if_pos rfl] at h'
        rcases List.mem_append.mp h' with h'' | h''
        · exact Or.inl h''
        · exact Or.inr ⟨e, List.mem_cons_self e rest, rfl, (List.mem_singleton.mp h'').symm⟩
      · rw [if_neg hae] at h'
        exact Or.inl h'
    · exact Or.inr ⟨e', List.mem_cons_of_mem e he', hs, ht⟩

/-- Adjacency in the graph built by detectCycle implies an actual edge. -/
theorem mem_agetD_buildGraph {nodes : List DAGNode} {edges : List DAGEdge}
    {a b : String} (h : b ∈ agetD (buildGraph nodes edges) a) : adjE edges a b := by
  unfold buildGraph at h
  rcases mem_foldl_graph edges _ a b h with h' | h'
  · rw [agetD_initGraph nodes [] (fun a' => rfl) a] at h'
    exact absurd h' (List.not_mem_nil b)
  · exact h'

/-- Walking a reversed-adjacency chain from a member of the stack back to the
head yields a transitive step sequence. -/
theorem chain_flip_reaches {R : String → String → Prop} :
    ∀ (l : List String) (a n : String), n ∈ l →
      List.Chain' (fun x y => R y x) (a :: l) →
      Relation.TransGen R n a := by
  intro l
  induction l with
  | nil => intro a n h; exact absurd h (List.not_mem_nil n)
  | cons b rest ih =>
    intro a n hmem hchain
    rw [List.chain'_cons] at hchain
    obtain ⟨hba, hrest⟩ := hchain
    rcases List.mem_cons.mp hmem with rfl | hmem'
    · exact Relation.TransGen.single hba
    · exact (ih b n hmem' hrest).tail hba

/-- In a graph without directed cycles, dfs never reports a cycle, for any
fuel, as long as the recursion stack below the current node is a real path
of the graph. -/
theorem dfs_no_cycle_false {g : List (String × List String)}
    (hacyc : ∀ m, ¬ Relation.TransGen (fun a b => b ∈ agetD g a) m m) :
    ∀ (fuel : Nat) (n : String) (stack visited : List String),
      List.Chain' (fun x y => x ∈ agetD g y) (n :: stack) →
      (dfs fuel g n stack visited).1 = false := by
  intro fuel
  induction fuel with
  | zero => intro n stack visited _; rfl
  | succ fuel ih =>
    intro n stack visited hchain
    rw [dfs]
    by_cases hstack : n ∈ stack
    · exact absurd (chain_flip_reaches stack n n hstack hchain) (hacyc n)
    · rw [if_neg hstack]
      by_cases hvis : n ∈ visited
      · rw [if_pos hvis]
      · rw [if_neg hvis]
        have aux : ∀ (ms : List String), (∀ m ∈ ms, m ∈ agetD g n) →
            ∀ (acc : Bool × List String), acc.1 = false →
            (ms.foldl
              (fun acc m => if acc.1 then acc else dfs fuel g m (n :: stack) acc.2)
              acc).1 = false := by
          intro ms
          induction ms with
          | nil => intro _ acc hacc; simpa using hacc
          | cons m rest ihm =>
            intro hmem acc hacc
            rw [List.foldl_cons, hacc]
            simp only [Bool.false_eq_true, if_false]
            have hch : List.Chain' (fun x y => x ∈ agetD g y) (m :: n :: stack) := by
              rw [List.chain'_cons]
              exact ⟨hmem m (List.mem_cons_self m rest), hchain⟩
            exact ihm (fun m' hm' => hmem m' (List.mem_cons_of_mem m hm')) _
              (ih m (n :: stack) acc.2 hch)
        exact aux (agetD g n) (fun m hm => hm) (false, n :: visited) rfl

/-- In a graph whose edge set admits no directed cycle, detectCycle returns
false. -/
theorem detectCycle_no_cycle_false (nodes : List DAGNode) (edges : List DAGEdge)
    (hacyc : ∀ m, ¬ Relation.TransGen (adjE edges) m m) :
    detectCycle nodes edges = false := by
  have hacyc' : ∀ m, ¬ Relation.TransGen
      (fun a b => b ∈ agetD (buildGraph nodes edges) a) m m := by
    intro m hm
    exact hacyc m (hm.mono (fun a b h => mem_agetD_buildGraph h))
  unfold detectCycle
  have aux : ∀ (ns : List DAGNode) (acc : Bool × List String), acc.1 = false →
      (ns.foldl
        (fun acc node =>
          if acc.1 then acc
          else if node.id ∈ acc.2 then acc
          else dfs (nodes.length + edges.length + 1) (buildGraph nodes edges)
            node.id [] acc.2)
        acc).1 = false := by
    intro ns
    induction ns with
    | nil => intro acc hacc; simpa using hacc
    | cons node rest ihn =>
      intro acc hacc
      rw [List.foldl_cons, hacc]
      simp only [Bool.false_eq_true, if_false]
      by_cases hv : node.id ∈ acc.2
      · rw [if_pos hv]
        exact ihn acc hacc
      · rw [if_neg hv]
        exact ihn _ (dfs_no_cycle_false hacyc' _ node.id [] acc.2
          (List.chain'_singleton node.id))
  exact aux nodes (false, []) rfl

/-- Membership in the connected-nodes accumulator built by validation rule 2. -/
theorem mem_connected_foldl (edges : List DAGEdge) :
    ∀ (s0 : List String) (x : String),
      (x ∈ s0 ∨ ∃ e ∈ edges, e.source = x ∨ e.target = x) →
      x ∈ edges.foldl (fun s edge => s ++ [edge.source, edge.target]) s0 := by
  induction edges with
  | nil =>
    intro s0 x h
    rcases h with h | ⟨e, he, -⟩
    · exact h
    · exact absurd he (List.not_mem_nil e)
  | cons e rest ih =>
    intro s0 x h
    rw [List.foldl_cons]
    apply ih
    rcases h with h | ⟨e', he', h'⟩
    · exact Or.inl (by simp [h])
    · rcases List.mem_cons.mp he' with rfl | he''
      · refine Or.inl ?_
        rcases h' with h' | h' <;> simp [h']
      · exact Or.inr ⟨e', he'', h'⟩

/-- C3: (a) every graph with at least two nodes, every node an endpoint of
some edge, no self-loop and no directed cycle validates with isValid true
and an empty error list; (b) in general isValid is true exactly when the
error list is empty and there are at least two nodes. -/
theorem useDAGValidation_valid_characterization :
    (∀ (nodes : List DAGNode) (edges : List DAGEdge),
      2 ≤ nodes.length →
      (∀ node ∈ nodes, ∃ e ∈ edges, e.source = node.id ∨ e.target = node.id) →
      (∀ e ∈ edges, e.source ≠ e.target) →
      (∀ m, ¬ Relation.TransGen (adjE edges) m m) →
      (useDAGValidation nodes edges).isValid = true ∧
      (useDAGValidation nodes edges).errors = []) ∧
    (∀ (nodes : List DAGNode) (edges : List DAGEdge),
      (useDAGValidation nodes edges).isValid = true ↔
      ((useDAGValidation nodes edges).errors = [] ∧ 2 ≤ nodes.length)) := by
  constructor
  · intro nodes edges hlen hcov hself hacyc
    have h1 : ¬ (nodes.length < 2) := by omega
    have hd : nodes.filter
        (fun node =>
          !((edges.foldl (fun s edge => s ++ [edge.source, edge.target])
            []).contains node.id)) = [] := by
      rw [List.filter_eq_nil_iff]
      intro node hn
      have hx : node.id ∈ edges.foldl
          (fun s edge => s ++ [edge.source, edge.target]) [] :=
        mem_connected_foldl edges [] node.id (Or.inr (hcov node hn))
      simp [List.elem_iff.mpr hx, List.contains]
      exact hx
    have hs : edges.filter (fun edge => edge.source == edge.target) = [] := by
      rw [List.filter_eq_nil_iff]
      intro e he
      simpa using hself e he
    have hc : detectCycle nodes edges = false :=
      detectCycle_no_cycle_false nodes edges hacyc
    constructor <;>
      simp [useDAGValidation, h1, hd, hs, hc, hlen] <;>
      exact fun a ha => mem_connected_foldl edges [] a.id (Or.inr (hcov a ha))
  · intro nodes edges
    simp only [useDAGValidation, Bool.and_eq_true, decide_eq_true_eq,
      List.isEmpty_iff]

/-- Witness for C3 at the two-node graph A -> B. -/
theorem useDAGValidation_valid_characterization_witness :
    (useDAGValidation [nodeA, nodeB] [edgeAB]).isValid = true ∧
    (useDAGValidation [nodeA, nodeB] [edgeAB]).errors = [] :=
  useDAGValidation_valid_characterization.1 [nodeA, nodeB] [edgeAB]
    (by decide) (by decide) (by decide)
    (by
      intro m hm
      obtain ⟨b, hb, -⟩ := Relation.TransGen.head'_iff.mp hm
      obtain ⟨b2, -, ht⟩ := Relation.TransGen.tail'_iff.mp hm
      obtain ⟨e, he, hs1, -⟩ := hb
      obtain ⟨e', he', -, ht2⟩ := ht
      rw [List.mem_singleton.mp he] at hs1
      rw [List.mem_singleton.mp he'] at ht2
      have : m = "A" := hs1.symm
      have h2 : m = "B" := ht2.symm
      exact absurd (this ▸ h2) (by decide))

/-- Digit characters are digits. -/
theorem digitChar_isDigit {d : Nat} (h : d < 10) : (Nat.digitChar d).isDigit = true := by
  interval_cases d <;> decide

/-- Value of a digit character. -/
theorem digitChar_val {d : Nat} (h : d < 10) : (Nat.digitChar d).toNat - 48 = d := by
  interval_cases d <;> decide

/-- Parsing after appending one digit. -/
theorem parseDigits_append (xs : List Char) (c : Char) :
    parseDigits (xs ++ [c]) = 10 * parseDigits xs + (c.toNat - 48) := by
  simp [parseDigits, List.foldl_append]

/-- The fuel-bounded decimal rendering is made of digits, is nonempty, and
parses back to its input, for sufficient fuel. -/
theorem natToCharsAux_spec :
    ∀ (fuel n : Nat), n < fuel →
      (∀ c ∈ natToCharsAux fuel n, c.isDigit = true) ∧
      natToCharsAux fuel n ≠ [] ∧
      parseDigits (natToCharsAux fuel n) = n := by
  intro fuel
  induction fuel with
  | zero => intro n h; exact absurd h (Nat.not_lt_zero n)
  | succ fuel ih =>
    intro n h
    by_cases h10 : n < 10
    · simp only [natToCharsAux, if_pos h10]
      refine ⟨?_, by simp, ?_⟩
      · intro c hc
        rw [List.mem_singleton.mp hc]
        exact digitChar_isDigit h10
      · simp [parseDigits]
        exact digitChar_val h10
    · have hdiv : n / 10 < fuel := by
        have := Nat.div_lt_self (by omega : 0 < n) (by norm_num : 1 < 10)
        omega
      obtain ⟨hdig, hne, hval⟩ := ih (n / 10) hdiv
      simp only [natToCharsAux, if_neg h10]
      refine ⟨?_, by simp, ?_⟩
      · intro c hc
        rcases List.mem_append.mp hc with hc | hc
        · exact hdig c hc
        · rw [List.mem_singleton.mp hc]
          exact digitChar_isDigit (Nat.mod_lt n (by norm_num))
      · rw [parseDigits_append, hval, digitChar_val (Nat.mod_lt n (by norm_num))]
        omega

/-- The decimal rendering is made of digits, is nonempty, and parses back. -/
theorem natToChars_spec (n : Nat) :
    (∀ c ∈ natToChars n, c.isDigit = true) ∧
    natToChars n ≠ [] ∧
    parseDigits (natToChars n) = n :=
  natToCharsAux_spec (n + 1) n (Nat.lt_succ_self n)

/-- The regex scan matches at position 0 on a literal followed by digits. -/
theorem scanMatch_self (pre : List Char) (hpre : pre ≠ []) (ds : List Char)
    (hne : ds ≠ []) (hdig : ∀ c ∈ ds, c.isDigit = true) :
    scanMatch pre (pre ++ ds) = some (parseDigits ds) := by
  cases pre with
  | nil => exact absurd rfl hpre
  | cons p ptl =>
    show scanMatch (p :: ptl) (p :: (ptl ++ ds)) = _
    have ht : (p :: (ptl ++ ds)).take (p :: ptl).length = p :: ptl :=
      List.take_left (p :: ptl) ds
    have hd : (p :: (ptl ++ ds)).drop (p :: ptl).length = ds :=
      List.drop_left (p :: ptl) ds
    have htw : ds.takeWhile Char.isDigit = ds :=
      List.takeWhile_eq_self_iff.mpr hdig
    rw [scanMatch, if_pos ⟨ht, by rw [hd, htw]; exact hne⟩, hd, htw]

/-- The counter regex recovers the counter from a generated id. -/
theorem matchNum_pre_natToDec (pre : String) (hpre : pre.toList ≠ []) (n : Nat) :
    matchNum pre (pre ++ natToDec n) = some n := by
  obtain ⟨hdig, hne, hval⟩ := natToChars_spec n
  have htl : (pre ++ natToDec n).toList = pre.toList ++ natToChars n := by
    simp [natToDec, String.toList]
  rw [matchNum, htl, scanMatch_self pre.toList hpre _ hne hdig, hval]

/-- The max-scan fold never goes below its accumulator. -/
theorem le_maxIdFold_foldl (pre : String) :
    ∀ (ids : List String) (acc : Nat),
      acc ≤ ids.foldl
        (fun mx id =>
          match matchNum pre id with
          | some n => Nat.max mx n
          | none => mx)
        acc := by
  intro ids
  induction ids with
  | nil => intro acc; exact Nat.le_refl acc
  | cons id rest ih =>
    intro acc
    refine Nat.le_trans ?_ (ih _)
    cases hm : matchNum pre id with
    | none => simp [hm]
    | some n => simp [hm, Nat.le_max_left]

/-- The max-scan fold dominates every matched id number. -/
theorem maxIdFold_ge (pre : String) (ids : List String) (id : String) (n : Nat)
    (hmem : id ∈ ids) (hmatch : matchNum pre id = some n) :
    n ≤ maxIdFold ids pre := by
  suffices h : ∀ (ids' : List String) (acc : Nat), id ∈ ids' →
      n ≤ ids'.foldl
        (fun mx id =>
          match matchNum pre id with
          | some n => Nat.max mx n
          | none => mx)
        acc from h ids 0 hmem
  intro ids'
  induction ids' with
  | nil => intro acc h; exact absurd h (List.not_mem_nil id)
  | cons hd rest ih =>
    intro acc h
    rw [List.foldl_cons]
    rcases List.mem_cons.mp h with rfl | h'
    · refine Nat.le_trans ?_ (le_maxIdFold_foldl pre rest _)
      simp [hmatch, Nat.le_max_right]
    · exact ih _ h'

/-- The mount-time edge counter is past every canonical edge id present. -/
theorem initEdgeState_inv (initialEdges : List DAGEdge) :
    edgeCounterInv (initEdgeState initialEdges) := by
  intro e he n hn
  have hm : matchNum "edge-" e.id = some n := by
    rw [hn]
    exact matchNum_pre_natToDec "edge-" (by decide) n
  have hle : n ≤ maxIdFold (initialEdges.map (fun e => e.id)) "edge-" :=
    maxIdFold_ge "edge-" _ e.id n (List.mem_map_of_mem _ he) hm
  show n < maxIdFold (initialEdges.map (fun e => e.id)) "edge-" + 1
  omega

/-- addEdge preserves the edge-counter invariant. -/
theorem addEdge_preserves_inv (st : EdgeState) (nodes : List DAGNode)
    (s t : String) (hinv : edgeCounterInv st) :
    edgeCounterInv (addEdge st nodes s t).2 := by
  unfold addEdge
  by_cases hv : (validateEdge st.edges nodes s t).isValid
  · simp only [hv, if_pos]
    intro e he n hn
    show n < st.counter + 1
    rcases List.mem_append.mp he with he' | he'
    · exact Nat.lt_succ_of_lt (hinv e he' n hn)
    · rw [List.mem_singleton.mp he'] at hn
      have h1 : matchNum "edge-" ("edge-" ++ natToDec st.counter) = some st.counter :=
        matchNum_pre_natToDec "edge-" (by decide) st.counter
      have h2 : matchNum "edge-" ("edge-" ++ natToDec st.counter) = some n := by
        have : (mkNewEdge st.counter s t).id = "edge-" ++ natToDec st.counter := rfl
        rw [this] at hn
        rw [hn]
        exact matchNum_pre_natToDec "edge-" (by decide) n
      have : st.counter = n := Option.some.inj (h1.symm.trans h2)
      omega
  · simpa [hv] using hinv

/-- C5: addEdge refuses to mutate and returns false when validateEdge is
invalid; when validateEdge is valid it returns true and appends exactly one
new edge with the given source and target, whose identity differs from
every existing edge identity (under the store's counter invariant, which
holds at mount time and is preserved by addEdge). -/
theorem addEdge_validates_and_appends
    (st : EdgeState) (nodes : List DAGNode) (s t : String) :
    ((validateEdge st.edges nodes s t).isValid = false →
      addEdge st nodes s t = (false, st)) ∧
    ((validateEdge st.edges nodes s t).isValid = true →
      (addEdge st nodes s t).1 = true ∧
      (addEdge st nodes s t).2.edges = st.edges ++ [mkNewEdge st.counter s t] ∧
      (mkNewEdge st.counter s t).source = s ∧
      (mkNewEdge st.counter s t).target = t ∧
      (edgeCounterInv st →
        ∀ e ∈ st.edges, e.id ≠ (mkNewEdge st.counter s t).id)) := by
  constructor
  · intro h
    simp [addEdge, h]
  · intro h
    refine ⟨by simp [addEdge, h], by simp [addEdge, h], rfl, rfl, ?_⟩
    intro hinv e he heq
    exact absurd (hinv e he st.counter heq) (Nat.lt_irrefl st.counter)

/-- Witness for C5 on the freshly mounted empty edge store with nodes A, B. -/
theorem addEdge_validates_and_appends_witness :
    (addEdge (initEdgeState []) [nodeA, nodeB] "A" "B").1 = true ∧
    (addEdge (initEdgeState []) [nodeA, nodeB] "A" "B").2.edges =
      (initEdgeState []).edges ++
        [mkNewEdge (initEdgeState []).counter "A" "B"] :=
  ⟨((addEdge_validates_and_appends (initEdgeState []) [nodeA, nodeB] "A" "B").2
      (by decide)).1,
    ((addEdge_validates_and_appends (initEdgeState []) [nodeA, nodeB] "A" "B").2
      (by decide)).2.1⟩

/-- The mount-time node counter is past every matched suffix in the initial
history. -/
theorem initNodeState_inv (initialNodes : List DAGNode) :
    nodeHistoryInv (initNodeState initialNodes) := by
  intro id hid m hm
  have hle : m ≤ maxIdFold (initialNodes.map (fun n => n.id)) "node-" :=
    maxIdFold_ge "node-" _ id m hid hm
  show m < maxIdFold (initialNodes.map (fun n => n.id)) "node-" + 1
  omega

/-- Every clear-free mutation-store operation preserves the history
invariant. -/
theorem applyNodeOp_preserves_inv (st : NodeState) (op : NodeOp)
    (hop : isClearOp op = false) (hinv : nodeHistoryInv st) :
    nodeHistoryInv (applyNodeOp st op) := by
  cases op with
  | addNode label pos =>
    by_cases hl : strTrim label = ""
    · simpa [applyNodeOp, hl] using hinv
    · intro id hid m hm
      simp only [applyNodeOp, if_neg hl] at hid ⊢
      rcases List.mem_append.mp hid with hid' | hid'
      · exact Nat.lt_succ_of_lt (hinv id hid' m hm)
      · rw [List.mem_singleton.mp hid'] at hm
        have h1 : matchNum "node-" ("node-" ++ natToDec st.counter) = some st.counter :=
          matchNum_pre_natToDec "node-" (by decide) st.counter
        have : st.counter = m := Option.some.inj (h1.symm.trans hm)
        omega
  | removeNode nodeId =>
    intro id hid m hm
    exact hinv id hid m hm
  | removeNodes nodeIds =>
    intro id hid m hm
    exact hinv id hid m hm
  | clearNodes => simp [isClearOp] at hop

/-- A clear-free sequence of mutation-store operations preserves the history
invariant. -/
theorem runNodeOps_preserves_inv (ops : List NodeOp) :
    ∀ (st : NodeState), (∀ op ∈ ops, isClearOp op = false) →
      nodeHistoryInv st → nodeHistoryInv (runNodeOps st ops) := by
  induction ops with
  | nil => intro st _ hinv; exact hinv
  | cons op rest ih =>
    intro st hops hinv
    show nodeHistoryInv ((rest).foldl applyNodeOp (applyNodeOp st op))
    exact ih (applyNodeOp st op)
      (fun op' h => hops op' (List.mem_cons_of_mem op h))
      (applyNodeOp_preserves_inv st op (hops op (List.mem_cons_self op rest)) hinv)

/-- C6 (amended): after any clear-free sequence of mutation-store
operations, the next successful addNode assigns the id built from the
current counter, and that id's numeric suffix is strictly greater than the
matched numeric suffix of every node identity ever present in the store. -/
theorem addNode_id_monotone_without_clear
    (initialNodes : List DAGNode) (ops : List NodeOp) (label : String)
    (pos : Position) (st : NodeState)
    (hops : ∀ op ∈ ops, isClearOp op = false)
    (hlabel : ¬ strTrim label = "")
    (hst : st = runNodeOps (initNodeState initialNodes) ops) :
    (applyNodeOp st (NodeOp.addNode label pos)).nodes =
      st.nodes ++ [⟨"node-" ++ natToDec st.counter, strTrim label, pos, false⟩] ∧
    matchNum "node-" ("node-" ++ natToDec st.counter) = some st.counter ∧
    (∀ id ∈ st.history, ∀ m : Nat,
      matchNum "node-" id = some m → m < st.counter) := by
  refine ⟨by simp [applyNodeOp, hlabel], matchNum_pre_natToDec "node-" (by decide) st.counter, ?_⟩
  rw [hst]
  exact runNodeOps_preserves_inv ops (initNodeState initialNodes) hops
    (initNodeState_inv initialNodes)

/-- Witness for the amended C6: one prior addition, then a second one. -/
theorem addNode_id_monotone_without_clear_witness :
    (applyNodeOp (runNodeOps (initNodeState []) [NodeOp.addNode "A" ⟨0, 0⟩])
        (NodeOp.addNode "B" ⟨0, 0⟩)).nodes =
      (runNodeOps (initNodeState []) [NodeOp.addNode "A" ⟨0, 0⟩]).nodes ++
        [⟨"node-" ++
            natToDec (runNodeOps (initNodeState [])
              [NodeOp.addNode "A" ⟨0, 0⟩]).counter,
          strTrim "B", ⟨0, 0⟩, false⟩] ∧
    matchNum "node-"
        ("node-" ++
          natToDec (runNodeOps (initNodeState [])
            [NodeOp.addNode "A" ⟨0, 0⟩]).counter) =
      some (runNodeOps (initNodeState []) [NodeOp.addNode "A" ⟨0, 0⟩]).counter :=
  ⟨(addNode_id_monotone_without_clear [] [NodeOp.addNode "A" ⟨0, 0⟩] "B" ⟨0, 0⟩ _
      (by decide) (by decide) rfl).1,
    (addNode_id_monotone_without_clear [] [NodeOp.addNode "A" ⟨0, 0⟩] "B" ⟨0, 0⟩ _
      (by decide) (by decide) rfl).2.1⟩

/-- Counterexample to C6 as stated: in the sequence add A, add B, clear,
add C, the final addition assigns "node-1" (suffix 1), although "node-2"
(suffix 2) was previously present in the store during the sequence, and
1 is not greater than 2 — clearNodes resets the counter to 1. -/
theorem addNode_id_not_monotone_with_clear :
    (runNodeOps (initNodeState [])
        [NodeOp.addNode "A" ⟨0, 0⟩, NodeOp.addNode "B" ⟨0, 0⟩,
          NodeOp.clearNodes, NodeOp.addNode "C" ⟨0, 0⟩]).nodes.map
      (fun n => n.id) = ["node-1"] ∧
    "node-2" ∈
      (runNodeOps (initNodeState [])
        [NodeOp.addNode "A" ⟨0, 0⟩, NodeOp.addNode "B" ⟨0, 0⟩,
          NodeOp.clearNodes, NodeOp.addNode "C" ⟨0, 0⟩]).history ∧
    matchNum "node-" "node-1" = some 1 ∧
    matchNum "node-" "node-2" = some 2 ∧
    ¬ (1 : Nat) > 2 := by
  decide

/-- The probe loop tried from attempt a either returns the first
non-overlapping candidate at or after a, or falls back to the start when
every remaining attempt overlaps. -/
theorem findLoop_characterization (nodes : List DAGNode) (startPosition : Position)
    (padding : ℝ) :
    ∀ (n a : Nat), a + n = 50 →
      (∃ k, a ≤ k ∧ k < 50 ∧ ¬ probeOverlaps nodes startPosition padding k ∧
        findLoop nodes startPosition padding a = probeCandidate startPosition k ∧
        ∀ j, a ≤ j → j < k → probeOverlaps nodes startPosition padding j) ∨
      ((∀ k, a ≤ k → k < 50 → probeOverlaps nodes startPosition padding k) ∧
        findLoop nodes startPosition padding a = startPosition) := by
  intro n
  induction n with
  | zero =>
    intro a ha
    right
    refine ⟨fun k hk hk' => absurd hk' (by omega), ?_⟩
    rw [findLoop, if_neg (by omega : ¬ a < 50)]
  | succ n ih =>
    intro a ha
    have ha50 : a < 50 := by omega
    by_cases hov : probeOverlaps nodes startPosition padding a
    · have hstep : findLoop nodes startPosition padding a =
          findLoop nodes startPosition padding (a + 1) := by
        rw [findLoop, if_pos ha50, if_pos]
        simpa [probeOverlaps, probeCandidate] using hov
      rw [hstep]
      rcases ih (a + 1) (by omega) with ⟨k, hk1, hk2, hk3, hk4, hk5⟩ | ⟨h1, h2⟩
      · exact Or.inl ⟨k, by omega, hk2, hk3, hk4, fun j hj1 hj2 => by
          rcases Nat.eq_or_lt_of_le hj1 with rfl | hj1'
          · exact hov
          · exact hk5 j hj1' hj2⟩
      · exact Or.inr ⟨fun k hk1 hk2 => by
          rcases Nat.eq_or_lt_of_le hk1 with rfl | hk1'
          · exact hov
          · exact h1 k hk1' hk2, h2⟩
    · have hstep : findLoop nodes startPosition padding a =
          probeCandidate startPosition a := by
        rw [findLoop, if_pos ha50, if_neg]
        · simp [probeCandidate]
        · simpa [probeOverlaps, probeCandidate] using hov
      exact Or.inl ⟨a, Nat.le_refl a, ha50, hov, hstep,
        fun j hj1 hj2 => absurd hj2 (by omega)⟩

/-- C8: findNonOverlappingPosition probes at most 50 candidate offsets on a
row-major fixed-step grid from the preferred (or default) start position and
returns the first candidate whose padding-inflated rectangle overlaps no
node's rectangle; when every probed candidate overlaps, it returns the
start position itself, so the search is total and never signals an error. -/
theorem findNonOverlappingPosition_characterization (nodes : List DAGNode)
    (preferredPosition : Option Position) (padding : ℝ) :
    (∃ k < 50, ¬ probeOverlaps nodes (preferredPosition.getD ⟨100, 100⟩) padding k ∧
      findNonOverlappingPosition nodes preferredPosition padding =
        probeCandidate (preferredPosition.getD ⟨100, 100⟩) k ∧
      ∀ j < k, probeOverlaps nodes (preferredPosition.getD ⟨100, 100⟩) padding j) ∨
    ((∀ k < 50, probeOverlaps nodes (preferredPosition.getD ⟨100, 100⟩) padding k) ∧
      findNonOverlappingPosition nodes preferredPosition padding =
        preferredPosition.getD ⟨100, 100⟩) := by
  have h := findLoop_characterization nodes (preferredPosition.getD ⟨100, 100⟩)
    padding 50 0 rfl
  unfold findNonOverlappingPosition
  rcases h with ⟨k, -, hk2, hk3, hk4, hk5⟩ | ⟨h1, h2⟩
  · exact Or.inl ⟨k, hk2, hk3, hk4, fun j hj => hk5 j (Nat.zero_le j) hj⟩
  · exact Or.inr ⟨fun k hk => h1 k (Nat.zero_le k) hk, h2⟩

theorem preservesNode_refl (a : DAGNode) : PreservesNode a a := ⟨rfl, rfl, rfl⟩

theorem preservesNode_update (a node : DAGNode) (pos : Position)
    (h : PreservesNode a node) : PreservesNode a { node with position := pos } := h

theorem preservesNode_comp {a b c : DAGNode}
    (h1 : PreservesNode a b) (h2 : PreservesNode b c) : PreservesNode a c :=
  ⟨h2.1.trans h1.1, h2.2.1.trans h1.2.1, h2.2.2.trans h1.2.2⟩

theorem forall2_refl_preserves (l : List DAGNode) : List.Forall₂ PreservesNode l l := by
  induction l with
  | nil => exact List.Forall₂.nil
  | cons a rest ih => exact List.Forall₂.cons (preservesNode_refl a) ih

theorem forall2_map_self {R : DAGNode → DAGNode → Prop} (l : List DAGNode)
    (f : DAGNode → DAGNode) (h : ∀ a ∈ l, R a (f a)) :
    List.Forall₂ R l (l.map f) := by
  induction l with
  | nil => exact List.Forall₂.nil
  | cons a rest ih =>
    exact List.Forall₂.cons (h a (List.mem_cons_self a rest))
      (ih (fun a' ha' => h a' (List.mem_cons_of_mem a ha')))

theorem forall2_mapIdx_self {R : DAGNode → DAGNode → Prop} :
    ∀ (l : List DAGNode) (f : Nat → DAGNode → DAGNode),
      (∀ i a, R a (f i a)) → List.Forall₂ R l (l.mapIdx f) := by
  intro l
  induction l with
  | nil => intro f _; exact List.Forall₂.nil
  | cons a rest ih =>
    intro f h
    rw [List.mapIdx_cons]
    exact List.Forall₂.cons (h 0 a) (ih _ (fun i a' => h (i + 1) a'))

theorem forall2_trans_preserves :
    ∀ {l1 l2 l3 : List DAGNode}, List.Forall₂ PreservesNode l1 l2 →
      List.Forall₂ PreservesNode l2 l3 → List.Forall₂ PreservesNode l1 l3 := by
  intro l1 l2 l3 h1
  induction h1 generalizing l3 with
  | nil => intro h2; cases h2; exact List.Forall₂.nil
  | cons ha htail ih =>
    intro h2
    cases h2 with
    | cons hb htail2 => exact List.Forall₂.cons (preservesNode_comp ha hb) (ih htail2)

theorem forall2_set_of_rel :
    ∀ {ns l : List DAGNode}, List.Forall₂ PreservesNode ns l →
      ∀ (i : Nat) (b : DAGNode),
        (∀ node, l[i]? = some node → PreservesNode node b) →
        List.Forall₂ PreservesNode ns (l.set i b) := by
  intro ns l h
  induction h with
  | nil => intro i b _; exact List.Forall₂.nil
  | @cons a b' ns' l' ha htail ih =>
    intro i b hb
    cases i with
    | zero =>
      rw [List.set_cons_zero]
      exact List.Forall₂.cons (preservesNode_comp ha (hb b' (by simp))) htail
    | succ i =>
      rw [List.set_cons_succ]
      exact List.Forall₂.cons ha
        (ih i b (fun node h => hb node (by rw [List.getElem?_cons_succ]; exact h)))

theorem foldl_inv {α : Type} {β : Type} (inv : α → Prop) (step : α → β → α) :
    ∀ (l : List β) (a : α), inv a →
      (∀ x acc, x ∈ l → inv acc → inv (step acc x)) → inv (l.foldl step a) := by
  intro l
  induction l with
  | nil => intro a ha _; exact ha
  | cons x rest ih =>
    intro a ha hstep
    rw [List.foldl_cons]
    exact ih _ (hstep x a (List.mem_cons_self x rest) ha)
      (fun x' acc hx' => hstep x' acc (List.mem_cons_of_mem x hx'))

theorem resolveStep_preserves (d : ℝ) (p : List DAGNode)
    (acc : List DAGNode × Bool) (i j : Nat)
    (h : List.Forall₂ PreservesNode p acc.1) :
    List.Forall₂ PreservesNode p (resolveStep d acc i j).1 := by
  unfold resolveStep
  rcases h1 : acc.1[i]? with - | node1
  · simpa [h1] using h
  · rcases h2 : acc.1[j]? with - | node2
    · simpa [h1, h2] using h
    · simp only [h1, h2]
      split_ifs with hd
      · refine forall2_set_of_rel
          (forall2_set_of_rel h i _ (fun node hn => ?_)) j _ (fun node hn => ?_)
        · rw [h1] at hn
          exact (Option.some.inj hn) ▸ preservesNode_update _ _ _ (preservesNode_refl _)
        · by_cases hij : i = j
          · subst hij
            obtain ⟨hlen, -⟩ := List.getElem?_eq_some.mp h2
            rw [List.getElem?_set_eq_of_lt _ hlen] at hn
            have h12 : node1 = node2 := Option.some.inj (h1.symm.trans h2)
            refine (Option.some.inj hn) ▸ ⟨?_, ?_, ?_⟩ <;> simp [h12]
          · rw [List.getElem?_set_ne hij] at hn
            rw [h2] at hn
            exact (Option.some.inj hn) ▸ preservesNode_update _ _ _ (preservesNode_refl _)
      · exact h

theorem calculateGridLayout_preserves (nodes : List DAGNode) (columns : Option Nat)
    (sx sy : ℝ) : List.Forall₂ PreservesNode nodes (calculateGridLayout nodes columns sx sy) := by
  by_cases h : nodes.length = 0
  · simp only [calculateGridLayout, if_pos h]
    exact forall2_refl_preserves nodes
  · simp only [calculateGridLayout, if_neg h]
    exact forall2_mapIdx_self nodes _ (fun i a => preservesNode_refl a)

theorem calculateCircularLayout_preserves (nodes : List DAGNode) (radius : Option ℝ)
    (cx cy : ℝ) : List.Forall₂ PreservesNode nodes (calculateCircularLayout nodes radius cx cy) := by
  by_cases h : nodes.length = 0
  · simp only [calculateCircularLayout, if_pos h]
    exact forall2_refl_preserves nodes
  · by_cases h1 : nodes.length = 1
    · simp only [calculateCircularLayout, if_neg h, if_pos h1]
      exact forall2_map_self nodes _ (fun a _ => preservesNode_refl a)
    · simp only [calculateCircularLayout, if_neg h, if_neg h1]
      exact forall2_mapIdx_self nodes _ (fun i a => preservesNode_refl a)

theorem calculateHierarchicalLayout_preserves (nodes : List DAGNode)
    (edges : List DAGEdge) (ls ns : ℝ) :
    List.Forall₂ PreservesNode nodes (calculateHierarchicalLayout nodes edges ls ns) := by
  by_cases h : nodes.length = 0
  · simp only [calculateHierarchicalLayout, if_pos h]
    exact forall2_refl_preserves nodes
  · by_cases h1 : (hierRoots nodes edges).length = 0
    · simp only [calculateHierarchicalLayout, if_neg h, if_pos h1]
      exact calculateGridLayout_preserves nodes _ 200 140
    · simp only [calculateHierarchicalLayout, if_neg h, if_neg h1]
      exact forall2_map_self nodes _ (fun a _ => preservesNode_refl a)

theorem calculateTreeLayout_preserves (nodes : List DAGNode) (edges : List DAGEdge)
    (direction : String) :
    List.Forall₂ PreservesNode nodes (calculateTreeLayout nodes edges direction) := by
  by_cases h : nodes.length = 0
  · simp only [calculateTreeLayout, if_pos h]
    exact forall2_refl_preserves nodes
  · simp only [calculateTreeLayout, if_neg h]
    cases hr : hierRoots nodes edges with
    | nil => exact calculateHierarchicalLayout_preserves nodes edges 180 160
    | cons root rest =>
      refine forall2_map_self nodes _ (fun a _ => ?_)
      cases hp : aget ((calcSubtree (hierOutgoing nodes edges) direction
          (nodes.length + 1) root.id 0 0 []).2) a.id with
      | none => exact preservesNode_refl a
      | some pos => exact preservesNode_update a a pos (preservesNode_refl a)

theorem calculateForceLayout_preserves (rand : Nat → ℝ) (nodes : List DAGNode)
    (edges : List DAGEdge) (iterations : Nat) (canvas : CanvasSize) :
    List.Forall₂ PreservesNode nodes
      (calculateForceLayout rand nodes edges iterations canvas) := by
  by_cases h : nodes.length = 0
  · simp only [calculateForceLayout, if_pos h]
    exact forall2_refl_preserves nodes
  · simp only [calculateForceLayout, if_neg h]
    exact forall2_map_self nodes _ (fun a _ => preservesNode_refl a)

theorem applyDagreLayout_preserves (oracle : Option (String → Option Position))
    (nodes : List DAGNode) (edges : List DAGEdge) (rankSep nodeSep : ℝ) :
    List.Forall₂ PreservesNode nodes
      (applyDagreLayout oracle nodes edges rankSep nodeSep) := by
  by_cases h : nodes.length = 0
  · simp only [applyDagreLayout, if_pos h]
    exact forall2_refl_preserves nodes
  · simp only [applyDagreLayout, if_neg h]
    cases oracle with
    | none => exact calculateHierarchicalLayout_preserves nodes edges rankSep nodeSep
    | some layout =>
      refine forall2_map_self nodes _ (fun a _ => ?_)
      cases layout a.id with
      | none => exact preservesNode_refl a
      | some g => exact preservesNode_update a a _ (preservesNode_refl a)

theorem resolvePass_preserves (d : ℝ) (p ns : List DAGNode)
    (h : List.Forall₂ PreservesNode p ns) :
    List.Forall₂ PreservesNode p (resolvePass d ns).1 := by
  unfold resolvePass
  refine foldl_inv (fun acc => List.Forall₂ PreservesNode p acc.1) _ _ (ns, false) h
    (fun i acc _ hacc => ?_)
  exact foldl_inv (fun acc => List.Forall₂ PreservesNode p acc.1) _ _ acc hacc
    (fun j acc' _ hacc' => resolveStep_preserves d p acc' i j hacc')

theorem resolveLoop_preserves (d : ℝ) :
    ∀ (fuel : Nat) (p ns : List DAGNode), List.Forall₂ PreservesNode p ns →
      List.Forall₂ PreservesNode p (resolveLoop d fuel ns) := by
  intro fuel
  induction fuel with
  | zero => intro p ns h; exact h
  | succ fuel ih =>
    intro p ns h
    simp only [resolveLoop]
    split_ifs with hflag
    · exact ih p _ (resolvePass_preserves d p ns h)
    · exact resolvePass_preserves d p ns h

theorem resolveNodeOverlaps_preserves (p ns : List DAGNode) (m : ℝ)
    (h : List.Forall₂ PreservesNode p ns) :
    List.Forall₂ PreservesNode p (resolveNodeOverlaps ns m) := by
  unfold resolveNodeOverlaps
  split_ifs with hlen
  · exact h
  · exact resolveLoop_preserves _ 15 p ns h

/-- C9: for every dagre oracle, random stream, node set, edge set and
canvas size, applyBestLayout returns a list of the same length whose node
at each index keeps its identity, label and selection flag — only the
position may differ.  (In this embedding inputs are immutable values, so
the input list itself cannot be mutated.) -/
theorem applyBestLayout_preserves (oracle : Option (String → Option Position))
    (rand : Nat → ℝ) (nodes : List DAGNode) (edges : List DAGEdge)
    (canvasSize : Option CanvasSize) :
    (applyBestLayout oracle rand nodes edges canvasSize).length = nodes.length ∧
    List.Forall₂ PreservesNode nodes
      (applyBestLayout oracle rand nodes edges canvasSize) := by
  suffices h : List.Forall₂ PreservesNode nodes
      (applyBestLayout oracle rand nodes edges canvasSize) from ⟨h.length_eq.symm, h⟩
  unfold applyBestLayout
  apply resolveNodeOverlaps_preserves
  split_ifs
  · exact calculateTreeLayout_preserves nodes edges "vertical"
  · exact calculateHierarchicalLayout_preserves nodes edges 180 160
  · exact applyDagreLayout_preserves oracle nodes edges 200 120
  · exact calculateForceLayout_preserves rand nodes edges 150 _
  · exact calculateCircularLayout_preserves nodes none 400 300
  · exact calculateGridLayout_preserves nodes _ 200 150

/-- Lookup after folding aset with a constant value over a list of keys. -/
theorem aget_foldl_aset_str (q : Nat) :
    ∀ (l : List String) (m0 : List (String × Nat)) (id : String),
      aget (l.foldl (fun m x => aset m x q) m0) id =
        if id ∈ l then some q else aget m0 id := by
  intro l
  induction l with
  | nil => intro m0 id; simp
  | cons x rest ih =>
    intro m0 id
    rw [List.foldl_cons, ih]
    by_cases hmem : id ∈ rest
    · simp [hmem]
    · by_cases hx : id = x
      · simp [hmem, hx, aget_aset]
      · simp [hmem, hx, aget_aset]

/-- Lookup after folding aset with a constant value keyed by node id. -/
theorem aget_foldl_aset_node (q : Nat) :
    ∀ (l : List DAGNode) (m0 : List (String × Nat)) (id : String),
      aget (l.foldl (fun m node => aset m node.id q) m0) id =
        if id ∈ l.map (fun n => n.id) then some q else aget m0 id := by
  intro l
  induction l with
  | nil => intro m0 id; simp
  | cons x rest ih =>
    intro m0 id
    rw [List.foldl_cons, ih]
    by_cases hmem : id ∈ rest.map (fun n => n.id)
    · simp [hmem]
    · by_cases hx : id = x.id
      · simp [hmem, hx, aget_aset]
      · simp [hmem, hx, aget_aset]

/-- Invariant of the topological BFS loop: every visited id has a recorded
level strictly below the final level index, and the level index never
decreases. -/
theorem hierLoop_inv (outE inE : List (String × List String)) :
    ∀ (fuel : Nat) (cur : List String) (idx : Nat) (vis : List String)
      (ntl : List (String × Nat)) (lvs : List (List String)),
      (∀ id ∈ vis, ∃ l, aget ntl id = some l ∧ l < idx) →
      (∀ id ∈ (hierLoop outE inE fuel cur idx vis ntl lvs).visited,
        ∃ l, aget (hierLoop outE inE fuel cur idx vis ntl lvs).ntl id = some l ∧
          l < (hierLoop outE inE fuel cur idx vis ntl lvs).levelIndex) ∧
      idx ≤ (hierLoop outE inE fuel cur idx vis ntl lvs).levelIndex := by
  intro fuel
  induction fuel with
  | zero =>
    intro cur idx vis ntl lvs hpre
    exact ⟨hpre, Nat.le_refl idx⟩
  | succ fuel ih =>
    intro cur idx vis ntl lvs hpre
    by_cases hcur : cur.length = 0
    · simp only [hierLoop, if_pos hcur]
      exact ⟨hpre, Nat.le_refl idx⟩
    · simp only [hierLoop, if_neg hcur]
      have hpre' : ∀ id ∈ vis ++ cur, ∃ l,
          aget (cur.foldl (fun m id => aset m id idx) ntl) id = some l ∧
            l < idx + 1 := by
        intro id hid
        rw [aget_foldl_aset_str]
        by_cases hmem : id ∈ cur
        · rw [if_pos hmem]
          exact ⟨idx, rfl, Nat.lt_succ_self idx⟩
        · rw [if_neg hmem]
          rcases List.mem_append.mp hid with h | h
          · obtain ⟨l, h1, h2⟩ := hpre id h
            exact ⟨l, h1, Nat.lt_succ_of_lt h2⟩
          · exact absurd h hmem
      have hrec := ih
        (cur.foldl
          (fun acc nodeId =>
            (agetD outE nodeId).foldl
              (fun acc childId =>
                if childId ∉ vis ++ cur ∧
                    (∀ p ∈ agetD inE childId, p ∈ vis ++ cur) ∧ childId ∉ acc
                then acc ++ [childId] else acc)
              acc)
          [])
        (idx + 1) (vis ++ cur) (cur.foldl (fun m id => aset m id idx) ntl)
        (lvs ++ [cur]) hpre'
      exact ⟨hrec.1, Nat.le_trans (Nat.le_succ idx) hrec.2⟩

/-- Adding the trailing level does not change the level index field. -/
theorem hierFinal_levelIndex (nodes : List DAGNode) (edges : List DAGEdge) :
    (hierFinal nodes edges).levelIndex = (hierBFS nodes edges).levelIndex := by
  simp only [hierFinal]
  split_ifs <;> rfl

/-- Adding the trailing level does not change the visited field. -/
theorem hierFinal_visited (nodes : List DAGNode) (edges : List DAGEdge) :
    (hierFinal nodes edges).visited = (hierBFS nodes edges).visited := by
  simp only [hierFinal]
  split_ifs <;> rfl

/-- Rounding a level ordinate is the identity: levels sit at integer y. -/
theorem jround_level (L : Nat) : jround ((L : ℝ) * 180 + 80) = (L : ℝ) * 180 + 80 := by
  have h : ((L : ℝ) * 180 + 80) = ((L * 180 + 80 : ℕ) : ℝ) := by push_cast; ring
  rw [h, jround, round_natCast]
  push_cast
  ring

/-- C7 (amended): whenever at least one in-degree-zero node exists, every
node never reached by the BFS level expansion is placed at the single
trailing level ordinate, strictly below which every reached node sits
(levels grow downward); so all unreached nodes share one trailing level
after all reached levels.  When no in-degree-zero node exists the function
instead falls back to a grid layout. -/
theorem calculateHierarchicalLayout_trailing
    (nodes : List DAGNode) (edges : List DAGEdge) (nodeSpacing : ℝ)
    (hroots : (hierRoots nodes edges).length ≠ 0) :
    List.Forall₂ (fun node out =>
      (node.id ∉ (hierBFS nodes edges).visited →
        out.position.y = ((hierBFS nodes edges).levelIndex : ℝ) * 180 + 80) ∧
      (node.id ∈ (hierBFS nodes edges).visited →
        out.position.y < ((hierBFS nodes edges).levelIndex : ℝ) * 180 + 80))
      nodes (calculateHierarchicalLayout nodes edges 180 nodeSpacing) := by
  have hnodes : ¬ (nodes.length = 0) := by
    intro h
    rw [List.length_eq_zero] at h
    subst h
    simp [hierRoots] at hroots
  simp only [calculateHierarchicalLayout, if_neg hnodes, if_neg hroots]
  refine forall2_map_self nodes _ (fun node hmem => ?_)
  have hinv2 : ∀ id ∈ (hierBFS nodes edges).visited,
      ∃ l, aget (hierBFS nodes edges).ntl id = some l ∧
        l < (hierBFS nodes edges).levelIndex := by
    simp only [hierBFS]
    exact (hierLoop_inv (hierOutgoing nodes edges) (hierIncoming nodes edges)
      (nodes.length + edges.length + 1)
      ((hierRoots nodes edges).map (fun node => node.id)) 0 [] [] []
      (fun id hid => absurd hid (List.not_mem_nil id))).1
  constructor
  · intro hunvis
    have hc : List.elem node.id (hierBFS nodes edges).visited = false := by
      rw [← Bool.not_eq_true]
      intro h
      exact hunvis (List.elem_iff.mp h)
    have hmemf : node ∈ nodes.filter
        (fun n => !((hierBFS nodes edges).visited.contains n.id)) := by
      rw [List.mem_filter]
      exact ⟨hmem, by simpa using hunvis⟩
    have hpos : 0 < (nodes.filter
        (fun n => !((hierBFS nodes edges).visited.contains n.id))).length :=
      List.length_pos.mpr (List.ne_nil_of_mem hmemf)
    have hntl : aget (hierFinal nodes edges).ntl node.id =
        some (hierBFS nodes edges).levelIndex := by
      simp only [hierFinal, if_pos hpos]
      rw [aget_foldl_aset_node, if_pos (List.mem_map_of_mem _ hmemf)]
    simp only [hntl, Option.getD_some]
    simp [jround_level]
  · intro hvis
    obtain ⟨l, hl, hlt⟩ := hinv2 node.id hvis
    have hntl : aget (hierFinal nodes edges).ntl node.id = some l := by
      simp only [hierFinal]
      split_ifs with hpos
      · rw [aget_foldl_aset_node, if_neg, hl]
        intro hin
        obtain ⟨n', hn', hid⟩ := List.mem_map.mp hin
        rw [List.mem_filter] at hn'
        have h2 := hn'.2
        rw [hid] at h2
        simp only [List.contains, Bool.not_eq_true'] at h2
        exact absurd (List.elem_iff.mpr hvis) (by rw [h2]; exact Bool.false_ne_true)
      · exact hl
    simp only [hntl, Option.getD_some, jround_level]
    have hcast : (l : ℝ) < ((hierBFS nodes edges).levelIndex : ℝ) := Nat.cast_lt.mpr hlt
    simp
    linarith

/-- Witness for C7 on a graph with root A, chain A -> B, and an unreachable
2-cycle C, D. -/
theorem calculateHierarchicalLayout_trailing_witness :
    List.Forall₂ (fun node out =>
      (node.id ∉ (hierBFS [nodeA, nodeB, nodeC, nodeD]
          [edgeAB, edgeCD, edgeDC]).visited →
        out.position.y =
          (((hierBFS [nodeA, nodeB, nodeC, nodeD]
            [edgeAB, edgeCD, edgeDC]).levelIndex : ℝ)) * 180 + 80) ∧
      (node.id ∈ (hierBFS [nodeA, nodeB, nodeC, nodeD]
          [edgeAB, edgeCD, edgeDC]).visited →
        out.position.y <
          (((hierBFS [nodeA, nodeB, nodeC, nodeD]
            [edgeAB, edgeCD, edgeDC]).levelIndex : ℝ)) * 180 + 80))
      [nodeA, nodeB, nodeC, nodeD]
      (calculateHierarchicalLayout [nodeA, nodeB, nodeC, nodeD]
        [edgeAB, edgeCD, edgeDC] 180 160) :=
  calculateHierarchicalLayout_trailing [nodeA, nodeB, nodeC, nodeD]
    [edgeAB, edgeCD, edgeDC] 160 (by decide)

/-- Counterexample to C7 as stated: on the rootless 5-cycle A B C D E no
node is ever reached by the BFS, yet the produced positions do not lie on a
single trailing level — the grid fallback puts node A at y = 100 and node D
at y = 240. -/
theorem calculateHierarchicalLayout_no_root_not_single_level :
    (hierRoots [nodeA, nodeB, nodeC, nodeD, nodeE]
      [edgeAB, edgeBC, edgeCD, edgeDE, edgeEA]).length = 0 ∧
    (hierBFS [nodeA, nodeB, nodeC, nodeD, nodeE]
      [edgeAB, edgeBC, edgeCD, edgeDE, edgeEA]).visited = [] ∧
    ((calculateHierarchicalLayout [nodeA, nodeB, nodeC, nodeD, nodeE]
        [edgeAB, edgeBC, edgeCD, edgeDE, edgeEA] 180 160).getD 0 nodeA).position.y
      = 100 ∧
    ((calculateHierarchicalLayout [nodeA, nodeB, nodeC, nodeD, nodeE]
        [edgeAB, edgeBC, edgeCD, edgeDE, edgeEA] 180 160).getD 3 nodeA).position.y
      = 240 ∧
    (100 : ℝ) ≠ 240 := by
  have h5 : ⌈Real.sqrt (5 : ℝ)⌉₊ = 3 := by
    have h1 : Real.sqrt 5 ≤ 3 := Real.sqrt_le_iff.mpr ⟨by norm_num, by norm_num⟩
    have h2 : (2 : ℝ) < Real.sqrt 5 := (Real.lt_sqrt (by norm_num)).mpr (by norm_num)
    rw [Nat.ceil_eq_iff (by norm_num)]
    refine ⟨?_, ?_⟩
    · exact_mod_cast h2
    · exact_mod_cast h1
  have hroots0 : (hierRoots [nodeA, nodeB, nodeC, nodeD, nodeE]
      [edgeAB, edgeBC, edgeCD, edgeDE, edgeEA]).length = 0 := by decide
  refine ⟨hroots0, by decide, ?_, ?_, by norm_num⟩ <;>
  · simp only [calculateHierarchicalLayout, hroots0, if_pos, if_neg,
      List.length_cons, List.length_nil, calculateGridLayout]
    norm_num [h5, List.mapIdx_cons, List.mapIdx_nil, List.getD,
      nodeA, nodeB, nodeC, nodeD, nodeE]

/-- A pair step with no overlap leaves the accumulator unchanged. -/
theorem resolveStep_id (d : ℝ) (acc : List DAGNode × Bool) (i j : Nat)
    (h : ∀ (n1 n2 : DAGNode), acc.1[i]? = some n1 → acc.1[j]? = some n2 →
      ¬ (Real.sqrt ((n2.position.x - n1.position.x) * (n2.position.x - n1.position.x) +
        (n2.position.y - n1.position.y) * (n2.position.y - n1.position.y)) < d)) :
    resolveStep d acc i j = acc := by
  unfold resolveStep
  rcases h1 : acc.1[i]? with - | n1
  · rfl
  · rcases h2 : acc.1[j]? with - | n2
    · rfl
    · simp only []
      rw [if_neg (h n1 n2 h1 h2)]

/-- A resolver pass over pairwise-distant nodes changes nothing and reports
no overlap. -/
theorem resolvePass_id (d : ℝ) (ns : List DAGNode)
    (h : ∀ (i j : Nat), i < j → ∀ (n1 n2 : DAGNode), ns[i]? = some n1 →
      ns[j]? = some n2 →
      ¬ (Real.sqrt ((n2.position.x - n1.position.x) * (n2.position.x - n1.position.x) +
        (n2.position.y - n1.position.y) * (n2.position.y - n1.position.y)) < d)) :
    resolvePass d ns = (ns, false) := by
  unfold resolvePass
  refine foldl_inv (fun acc => acc = (ns, false)) _ _ (ns, false) rfl
    (fun i acc _ hacc => ?_)
  refine foldl_inv (fun acc => acc = (ns, false)) _ _ acc hacc
    (fun j acc' hj hacc' => ?_)
  subst hacc'
  refine resolveStep_id d (ns, false) i j (fun n1 n2 h1 h2 => ?_)
  have hij : i < j := by
    have := List.mem_range'_1.mp hj
    omega
  exact h i j hij n1 n2 (by simpa using h1) (by simpa using h2)

/-- The resolver loop stops after one clean pass. -/
theorem resolveLoop_id (d : ℝ) (fuel : Nat) (ns : List DAGNode)
    (h : resolvePass d ns = (ns, false)) : resolveLoop d (fuel + 1) ns = ns := by
  simp [resolveLoop, h]

/-- Overlap resolution is the identity on pairwise-distant node sets. -/
theorem resolveNodeOverlaps_id (ns : List DAGNode) (m : ℝ)
    (h : ∀ (i j : Nat), i < j → ∀ (n1 n2 : DAGNode), ns[i]? = some n1 →
      ns[j]? = some n2 →
      ¬ (Real.sqrt ((n2.position.x - n1.position.x) * (n2.position.x - n1.position.x) +
        (n2.position.y - n1.position.y) * (n2.position.y - n1.position.y)) <
          NODE_WIDTH + m)) :
    resolveNodeOverlaps ns m = ns := by
  unfold resolveNodeOverlaps
  split_ifs with hlen
  · rfl
  · exact resolveLoop_id _ 14 ns (resolvePass_id _ ns h)

/-- Rounding an integral real is the identity. -/
theorem jround_eq_self_int (x : ℝ) (n : ℤ) (h : x = (n : ℝ)) : jround x = x := by
  rw [h, jround, round_intCast]

/-- The circular layout of the three-node chain: A goes to the top of the
circle of radius 150 around (400, 300), B and C to the lower third points. -/
theorem circularABC :
    calculateCircularLayout [nodeA, nodeB, nodeC] none 400 300 =
      [{ nodeA with position := ⟨340, 120⟩ },
        { nodeB with position := ⟨jround (340 + 75 * Real.sqrt 3), 345⟩ },
        { nodeC with position := ⟨jround (340 - 75 * Real.sqrt 3), 345⟩ }] := by
  have hlen0 : ¬ (([nodeA, nodeB, nodeC] : List DAGNode).length = 0) := by norm_num
  have hlen1 : ¬ (([nodeA, nodeB, nodeC] : List DAGNode).length = 1) := by norm_num
  simp only [calculateCircularLayout, if_neg hlen0, if_neg hlen1, Option.getD_none,
    List.mapIdx_cons, List.mapIdx_nil, List.length_cons, List.length_nil]
  norm_num only
  have hm : (150 : ℝ) ⊔ 75 = 150 := by norm_num
  have ha0 : -(Real.pi / 2) + 0 * (2 * Real.pi / 3) = -(Real.pi / 2) := by ring
  have ha1 : -(Real.pi / 2) + 1 * (2 * Real.pi / 3) = Real.pi / 6 := by ring
  have ha2 : -(Real.pi / 2) + 2 * (2 * Real.pi / 3) = Real.pi - Real.pi / 6 := by ring
  rw [hm, ha0, ha1, ha2, Real.cos_neg, Real.cos_pi_div_two, Real.sin_neg,
    Real.sin_pi_div_two, Real.cos_pi_sub, Real.sin_pi_sub, Real.cos_pi_div_six,
    Real.sin_pi_div_six]
  simp only [if_false, NODE_WIDTH, NODE_HEIGHT, List.cons.injEq, DAGNode.mk.injEq,
    Position.mk.injEq, and_true]
  and_intros
  all_goals try trivial
  · norm_num only
    rw [show (340 : ℝ) = ((340 : ℤ) : ℝ) by norm_num, jround, round_intCast]
  · norm_num only
    rw [show (120 : ℝ) = ((120 : ℤ) : ℝ) by norm_num, jround, round_intCast]
  · congr 1
    ring
  · norm_num only
    rw [show (345 : ℝ) = ((345 : ℤ) : ℝ) by norm_num, jround, round_intCast]
  · congr 1
    ring
  · norm_num only
    rw [show (345 : ℝ) = ((345 : ℤ) : ℝ) by norm_num, jround, round_intCast]

/-- Counterexample to C1 as stated: on nodes [A, B, C] with edges A -> B and
B -> C, getSuggestedLayout returns "circular", not "tree" — the node-count
rule (at most 4 nodes) fires before the tree rule, even though the graph has
the single root A and edge count 2 = node count - 1. -/
theorem endToEnd_scenario_not_tree :
    getSuggestedLayout [nodeA, nodeB, nodeC] [edgeAB, edgeBC] = "circular" ∧
    ("circular" : String) ≠ "tree" ∧
    (hierRoots [nodeA, nodeB, nodeC] [edgeAB, edgeBC]).map (fun n => n.id) = ["A"] ∧
    ([edgeAB, edgeBC] : List DAGEdge).length =
      ([nodeA, nodeB, nodeC] : List DAGNode).length - 1 := by
  refine ⟨by decide, by decide, by decide, by decide⟩

/-- C1 (amended): for the node set [A, B, C] with edges A -> B and B -> C,
validate returns isValid true, and applyBestLayout selects the "circular"
strategy (getSuggestedLayout returns "circular" because the node count 3 is
at most 4; the tree rule is only consulted above 4 nodes) and produces three
pairwise-distinct, non-overlapping positions. -/
theorem endToEnd_scenario_circular :
    (useDAGValidation [nodeA, nodeB, nodeC] [edgeAB, edgeBC]).isValid = true ∧
    getSuggestedLayout [nodeA, nodeB, nodeC] [edgeAB, edgeBC] = "circular" ∧
    (applyBestLayout none (fun _ => 0) [nodeA, nodeB, nodeC] [edgeAB, edgeBC]
      none).length = 3 ∧
    List.Pairwise
      (fun a b => a.position ≠ b.position ∧ ¬ doRectsOverlap (nodeRect a) (nodeRect b))
      (applyBestLayout none (fun _ => 0) [nodeA, nodeB, nodeC] [edgeAB, edgeBC]
        none) := by
  have hsel : getSuggestedLayout [nodeA, nodeB, nodeC] [edgeAB, edgeBC] =
      "circular" := by decide
  have happ : applyBestLayout none (fun _ => 0) [nodeA, nodeB, nodeC]
      [edgeAB, edgeBC] none =
      resolveNodeOverlaps (calculateCircularLayout [nodeA, nodeB, nodeC] none 400 300)
        50 := by
    simp [applyBestLayout, hsel]
  have h3a : (1.7 : ℝ) ≤ Real.sqrt 3 :=
    (Real.le_sqrt (by norm_num) (by norm_num)).mpr (by norm_num)
  have h3b : Real.sqrt 3 ≤ 1.74 := Real.sqrt_le_iff.mpr ⟨by norm_num, by norm_num⟩
  have habs1 := abs_sub_round (340 + 75 * Real.sqrt 3)
  have habs2 := abs_sub_round (340 - 75 * Real.sqrt 3)
  rw [abs_le] at habs1 habs2
  have hb1 : (467 : ℝ) ≤ jround (340 + 75 * Real.sqrt 3) := by
    rw [jround]
    have := habs1.1
    linarith
  have hc1 : jround (340 - 75 * Real.sqrt 3) ≤ 213 := by
    rw [jround]
    have := habs2.2
    linarith
  have hres : resolveNodeOverlaps
      [{ nodeA with position := ⟨340, 120⟩ },
        { nodeB with position := ⟨jround (340 + 75 * Real.sqrt 3), 345⟩ },
        { nodeC with position := ⟨jround (340 - 75 * Real.sqrt 3), 345⟩ }] 50 =
      [{ nodeA with position := ⟨340, 120⟩ },
        { nodeB with position := ⟨jround (340 + 75 * Real.sqrt 3), 345⟩ },
        { nodeC with position := ⟨jround (340 - 75 * Real.sqrt 3), 345⟩ }] := by
    refine resolveNodeOverlaps_id _ 50 (fun i j hij n1 n2 h1 h2 => ?_)
    have hj3 : j < 3 := by
      obtain ⟨hj, -⟩ := List.getElem?_eq_some.mp h2
      simpa using hj
    rw [not_lt, NODE_WIDTH]
    interval_cases j <;> interval_cases i <;>
      simp only [List.getElem?_cons_zero, List.getElem?_cons_succ] at h1 h2 <;>
      obtain rfl : n1 = _ := (Option.some.inj h1).symm <;>
      obtain rfl : n2 = _ := (Option.some.inj h2).symm <;>
      refine (Real.le_sqrt (by norm_num)
        (add_nonneg (mul_self_nonneg _) (mul_self_nonneg _))).mpr ?_ <;>
      simp only [] <;>
      nlinarith [mul_self_nonneg (jround (340 + 75 * Real.sqrt 3) - 340),
        mul_self_nonneg (jround (340 - 75 * Real.sqrt 3) - 340),
        sq_nonneg (jround (340 + 75 * Real.sqrt 3) -
          jround (340 - 75 * Real.sqrt 3) - 254), hb1, hc1]
  refine ⟨by decide, hsel, ?_, ?_⟩
  · rw [happ, circularABC, hres]
    simp
  · rw [happ, circularABC, hres]
    refine List.Pairwise.cons ?_ (List.Pairwise.cons ?_ (List.pairwise_singleton _ _))
    · intro b hb
      rcases List.mem_cons.mp hb with rfl | hb'
      · constructor
        · intro h
          have := congrArg Position.y h
          norm_num at this
        · simp only [doRectsOverlap, nodeRect, NODE_WIDTH, NODE_HEIGHT, not_not]
          norm_num
      · rw [List.mem_singleton.mp hb']
        constructor
        · intro h
          have := congrArg Position.y h
          norm_num at this
        · simp only [doRectsOverlap, nodeRect, NODE_WIDTH, NODE_HEIGHT, not_not]
          norm_num
    · intro b hb
      rw [List.mem_singleton.mp hb]
      constructor
      · intro h
        have := congrArg Position.x h
        norm_num at this
        linarith
      · simp only [doRectsOverlap, nodeRect, NODE_WIDTH, NODE_HEIGHT, not_not]
        refine Or.inr (Or.inl ?_)
        linarith
